import Mathlib

/-!
# eslint-formatter-pretty-summary: the formatter of `src/index.js`

A shallow embedding of the single exported function `module.exports = (results, data) => ...`
and the properties of its aggregation and rendering.

Conventions of the embedding
* JavaScript numbers that are counts are `Int`; display widths and lengths are `Nat`.
* A field that can be absent is an `Option` (`none` is `undefined`).
* Library functions (`chalk`, `string-width`, `path.relative`, `plur`, `ansi-escapes`,
  `supports-hyperlinks`, `eslint-rule-docs`) and the process state are fields of `Env`.
* A thrown exception is `Except.error`; the only one the function can throw on the modelled
  inputs is the `RangeError` of `String.prototype.repeat` with a negative count.
* The object `summary` is an association list in insertion order. Keys that name a member of
  `Object.prototype` (such as `constructor`) and integer-like keys are outside the model.
-/

namespace PrettySummary

/-! ## Data model -/

/-- The `severity` field of a message: a number (1 or 2 for ESLint) or a string. -/
inductive Severity where
  | num (n : Nat)
  | str (s : String)
  deriving DecidableEq, Repr

/-- The `ruleId` field of a message: a string, `null`, or absent. -/
inductive RuleId where
  | str (s : String)
  | null
  | undefined
  deriving DecidableEq, Repr

/-- One lint message. `line`, `column` and `fatal` may be absent. -/
structure LintMessage where
  line : Option Nat
  column : Option Nat
  severity : Severity
  fatal : Option Bool
  ruleId : RuleId
  message : String
  deriving DecidableEq, Repr

/-- One lint result (one analysed file). -/
structure LintResult where
  filePath : String
  messages : List LintMessage
  errorCount : Int
  warningCount : Int
  deriving DecidableEq, Repr

/-- The fields of a `{ type: "message", ... }` line item (index.js:110-120). -/
structure MessageItem where
  severity : String
  line : String
  lineWidth : Nat
  column : String
  columnWidth : Nat
  message : String
  messageWidth : Nat
  ruleId : String
  deriving DecidableEq, Repr

/-- An element of the array `lines`. -/
inductive LineItem where
  | separator
  | header (filePath relativeFilePath firstLineCol : String)
  | message (m : MessageItem)
  deriving DecidableEq, Repr

/-- A value of the object `summary`: `{ nr, files }`. -/
structure SummaryEntry where
  nr : Nat
  files : List String
  deriving DecidableEq, Repr

/-- Exceptions of the embedding. -/
inductive JsError where
  | rangeError
  deriving DecidableEq, Repr

/-- Outcome of evaluating an expression inside `try`: it threw, or it gave a value that may be
`undefined`. -/
inductive Lookup where
  | threw
  | value (url : Option String)
  deriving DecidableEq, Repr

/-- The libraries and the process state the formatter reads.
`stringWidth` is `string-width` on strings; the style fields are the `chalk` styles used;
`relative p` is `path.relative(".", p)`; `isTTY` is `process.stdout.isTTY`; `ci` is the
truthiness of `process.env.CI`; `setCwd` is `ansiEscapes.iTerm.setCwd()`; `supportsHyperlink`
is `supportsHyperlink(process.stdout)`; `link` is `ansiEscapes.link`; `getRuleDocsUrl id` is the
outcome of `getRuleDocs(id).url`; `plur` is `plur(word, count)`. -/
structure Env where
  stringWidth : String → Nat
  relative : String → String
  bold : String → String
  blue : String → String
  gray : String → String
  yellow : String → String
  red : String → String
  dim : String → String
  underline : String → String
  hiddenDimGray : String → String
  isTTY : Bool
  ci : Bool
  setCwd : String
  supportsHyperlink : Bool
  link : String → String → String
  getRuleDocsUrl : String → Lookup
  plur : String → Int → String

/-- The second argument `data`, seen through the only expression that reads it:
`data.rulesMeta[id].docs.url` (index.js:174). -/
abbrev RuleData := String → Lookup

/-- The accumulators declared at index.js:12-20. -/
structure Agg where
  lines : List LineItem
  errorCount : Nat
  warningCount : Int
  maxLineWidth : Nat
  maxColumnWidth : Nat
  maxMessageWidth : Nat
  showLineNumbers : Bool
  maxRuleWidth : Nat
  summary : List (String × SummaryEntry)

/-- Initial values of the accumulators. -/
def Agg.init : Agg :=
  { lines := [], errorCount := 0, warningCount := 0, maxLineWidth := 0, maxColumnWidth := 0,
    maxMessageWidth := 0, showLineNumbers := false, maxRuleWidth := 0, summary := [] }

/-! ## Array.prototype.sort -/

/-- One insertion step: the pivot goes before the first element it compares below. -/
def insertSorted {α : Type} (cmp : α → α → Int) (pivot : α) : List α → List α
  | [] => [pivot]
  | y :: ys => if cmp pivot y < 0 then pivot :: y :: ys else y :: insertSorted cmp pivot ys

/-- The built-in `Array.prototype.sort(cmp)`, as a stable insertion sort that places each
element, left to right, into the sorted prefix. Engines consult only whether a comparison is
negative, so this is the list every stable sort returns when "negative" is a strict weak order
on the elements (as for the file comparator); for other comparators the order is
implementation-defined, this list is one permutation, and only its being a permutation is
used. -/
def jsSort {α : Type} (cmp : α → α → Int) (xs : List α) : List α :=
  xs.foldl (fun acc x => insertSorted cmp x acc) []

/-! ## Comparators -/

/-- The comparator of `results.sort` (index.js:23-37). -/
def compareResults (a b : LintResult) : Int :=
  if a.errorCount = b.errorCount then b.warningCount - a.warningCount
  else if a.errorCount = 0 then -1
  else if b.errorCount = 0 then 1
  else b.errorCount - a.errorCount

/-- Truthiness of the `fatal` field. -/
def fatalTruthy (m : LintMessage) : Bool := m.fatal == some true

/-- JavaScript `<` on two possibly absent numbers: false when either is `undefined`. -/
def jsLt : Option Nat → Option Nat → Bool
  | some a, some b => decide (a < b)
  | _, _ => false

/-- The comparator of `messages.sort` (index.js:71-85). -/
def compareMessages (a b : LintMessage) : Int :=
  if a.fatal = b.fatal ∧ a.severity = b.severity then
    if a.line = b.line then (if jsLt a.column b.column then -1 else 1)
    else (if jsLt a.line b.line then -1 else 1)
  else if (fatalTruthy a || a.severity == Severity.num 2)
      && (!fatalTruthy b || b.severity != Severity.num 2) then 1
  else -1

/-- The classification `x.fatal || x.severity === 2 || x.severity === "error"`
(index.js:55 and 107). -/
def isError (x : LintMessage) : Bool :=
  fatalTruthy x || x.severity == Severity.num 2 || x.severity == Severity.str "error"

/-! ## Aggregation (index.js:22-128) -/

/-- A word character of a regular expression: `[A-Za-z0-9_]`. -/
def isWordChar (c : Char) : Bool := c.isAlphanum || c == '_'

/-- A line terminator, which `.` does not match. -/
def isLineTerminator (c : Char) : Bool :=
  c == '\n' || c == '\r' || c.toNat == 0x2028 || c.toNat == 0x2029

/-- Whether the input starts with a word character. -/
def startsWithWord : List Char → Bool
  | [] => false
  | c :: _ => isWordChar c

/-- The lazy group `(.*?)` followed by the closing delimiter `d` and `\B`: the shortest run of
non-terminator characters up to a `d` that is not followed by a word character. Returns the
captured text and the input after the closing delimiter. -/
def findClose (d : Char) : List Char → List Char → Option (List Char × List Char)
  | _, [] => none
  | acc, c :: cs =>
    if c == d && !startsWithWord cs then some (acc.reverse, cs)
    else if isLineTerminator c then none
    else findClose d (c :: acc) cs

/-- The backtick character. -/
def backtick : Char := Char.ofNat 96

/-- The single-quote character. -/
def quote : Char := Char.ofNat 39

/-- The argument `p1 || p2` of `chalk.bold` in the replacer: the captured text; an empty backtick
capture is falsy, so the absent second group is passed and chalk prints it as `undefined`. -/
def captureText (d : Char) (cap : List Char) : String :=
  if d == backtick && cap.isEmpty then "undefined" else String.mk cap

/-- The global replace of index.js:90-92, scanning left to right. `prevWord` says whether the
character before the current position is a word character (for the leading `\B`); the first
argument bounds the number of steps by the input length. -/
def stylizeAux (bold : String → String) : Nat → Bool → List Char → String
  | 0, _, cs => String.mk cs
  | _ + 1, _, [] => ""
  | fuel + 1, prevWord, c :: cs =>
    if (c == backtick || c == quote) && !prevWord then
      match findClose c [] cs with
      | some (cap, rest) => bold (captureText c cap) ++ stylizeAux bold fuel false rest
      | none => String.singleton c ++ stylizeAux bold fuel false cs
    else String.singleton c ++ stylizeAux bold fuel (isWordChar c) cs

/-- The stylized message: `message.replace(/\B`(.*?)`\B|\B'(.*?)'\B/g, ...)`. -/
def stylize (env : Env) (message : String) : String :=
  stylizeAux env.bold message.length false message.toList

/-- The value of `stringWidth(x.ruleId)`: `string-width` returns 0 for a non-string. -/
def ruleWidth (env : Env) : RuleId → Nat
  | RuleId.str s => env.stringWidth s
  | _ => 0

/-- The property key `summary[x.ruleId]` is stored under. -/
def ruleKey : RuleId → String
  | RuleId.str s => s
  | RuleId.null => "null"
  | RuleId.undefined => "undefined"

/-- The value of `x.ruleId || ""`. -/
def ruleIdOrEmpty : RuleId → String
  | RuleId.str s => s
  | _ => ""

/-- Truthiness of a possibly absent number. -/
def numTruthy : Option Nat → Bool
  | some n => n != 0
  | none => false

/-- A number, or `undefined`, converted to a string by `+`. -/
def jsNumStr : Option Nat → String
  | some n => toString n
  | none => "undefined"

/-- The value of `files` after `if (files.indexOf(f) == -1) files.push(f)`. -/
def pushUnique (files : List String) (f : String) : List String :=
  if f ∈ files then files else files ++ [f]

/-- The update of `summary` at index.js:122-125 for key `k` and file `filePath`, for a key that
does not name a member of `Object.prototype`: for such a name `summary[k]` is an inherited
value, no entry is stored and `files.indexOf` throws a `TypeError`, which is not modelled. -/
def summaryBump (filePath : String) (k : String) :
    List (String × SummaryEntry) → List (String × SummaryEntry)
  | [] => [(k, { nr := 1, files := [filePath] })]
  | (k', e) :: rest =>
    if k' = k then (k', { nr := e.nr + 1, files := pushUnique e.files filePath }) :: rest
    else (k', e) :: summaryBump filePath k rest

/-- The value of `summary[k]`, if present. -/
def summaryGet (summary : List (String × SummaryEntry)) (k : String) : Option SummaryEntry :=
  (summary.find? (fun p => p.1 == k)).map Prod.snd

/-- The line item pushed for an error-classified message (index.js:110-120). -/
def messageItem (env : Env) (x : LintMessage) : MessageItem :=
  { severity := if isError x then "error" else "warning"
    line := toString (x.line.getD 0)
    lineWidth := env.stringWidth (toString (x.line.getD 0))
    column := toString (x.column.getD 0)
    columnWidth := env.stringWidth (toString (x.column.getD 0))
    message := stylize env x.message
    messageWidth := env.stringWidth (stylize env x.message)
    ruleId := ruleIdOrEmpty x.ruleId }

/-- The body of `messages.forEach` (index.js:86-127) for one message of the file `filePath`. -/
def processMessage (env : Env) (filePath : String) (st : Agg) (x : LintMessage) : Agg :=
  let item := messageItem env x
  { lines := if isError x then st.lines ++ [LineItem.message item] else st.lines
    errorCount := st.errorCount
    warningCount := st.warningCount
    maxLineWidth := max item.lineWidth st.maxLineWidth
    maxColumnWidth := max item.columnWidth st.maxColumnWidth
    maxMessageWidth := max item.messageWidth st.maxMessageWidth
    showLineNumbers := st.showLineNumbers || numTruthy x.line || numTruthy x.column
    maxRuleWidth := max (ruleWidth env x.ruleId) st.maxRuleWidth
    summary := if isError x then st.summary else summaryBump filePath (ruleKey x.ruleId) st.summary }

/-- The message `messages.find(({ severity }) => severity === 2) || messages[0]`, for a
non-empty `messages` whose first element is `first`. -/
def firstErrorOrWarning (first : LintMessage) (messages : List LintMessage) : LintMessage :=
  (messages.find? (fun m => m.severity == Severity.num 2)).getD first

/-- The number `trueErrorCount` (index.js:54-56). -/
def trueErrorCount (messages : List LintMessage) : Nat := (messages.filter isError).length

/-- The string `firstErrorOrWarning.line + ":" + firstErrorOrWarning.column` (index.js:66). -/
def firstLineCol (first : LintMessage) (messages : List LintMessage) : String :=
  jsNumStr (firstErrorOrWarning first messages).line ++ ":"
    ++ jsNumStr (firstErrorOrWarning first messages).column

/-- The part of the `results.forEach` body before the messages are sorted (index.js:45-68),
for a result whose `messages` starts with `first`. -/
def openResult (env : Env) (st : Agg) (result : LintResult) (first : LintMessage) : Agg :=
  let sep := if st.lines.length ≠ 0 then st.lines ++ [LineItem.separator] else st.lines
  { st with
    warningCount := st.warningCount + result.warningCount
    errorCount := st.errorCount + trueErrorCount result.messages
    lines :=
      if trueErrorCount result.messages > 0 then
        sep ++ [LineItem.header result.filePath (env.relative result.filePath)
          (firstLineCol first result.messages)]
      else sep }

/-- The body of `results.forEach` (index.js:38-128). -/
def processResult (env : Env) (st : Agg) (result : LintResult) : Agg :=
  match result.messages with
  | [] => st
  | first :: _ =>
    (jsSort compareMessages result.messages).foldl (processMessage env result.filePath)
      (openResult env st result first)

/-- The accumulators after `results.sort(...).forEach(...)`. -/
def aggregate (env : Env) (results : List LintResult) : Agg :=
  (jsSort compareResults results).foldl (processResult env) Agg.init

/-- The array `results` as the call leaves it: sorted in place, and the `messages` array of
every result that has messages sorted in place. -/
def resultsAfterCall (results : List LintResult) : List LintResult :=
  (jsSort compareResults results).map
    (fun r => { r with messages := jsSort compareMessages r.messages })

/-! ## Rendering (index.js:130-215) -/

/-- The string of `n` spaces. -/
def spaces (n : Nat) : String := String.mk (List.replicate n ' ')

/-- The value of `" ".repeat(count)`: a `RangeError` for a negative count. -/
def repeatSpaces (count : Int) : Except JsError String :=
  if count < 0 then Except.error JsError.rangeError
  else Except.ok (spaces count.toNat)

/-- The property `length` of a string: its number of UTF-16 code units. -/
def jsLength (s : String) : Nat :=
  (s.toList.map (fun c => if c.toNat < 65536 then 1 else 2)).sum

/-- One line of the warning summary (index.js:140-149). -/
def summaryLine (env : Env) (maxRuleWidth : Nat) (entry : String × SummaryEntry) :
    Except JsError String :=
  match repeatSpaces ((maxRuleWidth : Int) - (jsLength entry.1 : Int)) with
  | Except.error e => Except.error e
  | Except.ok pad =>
    Except.ok ("  " ++ env.gray entry.1 ++ pad ++ "  " ++ env.yellow (toString entry.2.nr)
      ++ " errors in " ++ env.yellow (toString entry.2.files.length) ++ " files" ++ "\n")

/-- The text appended by `Object.keys(summary).forEach(...)`. -/
def summaryLines (env : Env) (maxRuleWidth : Nat) :
    List (String × SummaryEntry) → Except JsError String
  | [] => Except.ok ""
  | entry :: rest =>
    match summaryLine env maxRuleWidth entry with
    | Except.error e => Except.error e
    | Except.ok s =>
      match summaryLines env maxRuleWidth rest with
      | Except.error e => Except.error e
      | Except.ok t => Except.ok (s ++ t)

/-- The "Warning summary" block (index.js:137-152). -/
def summaryBlock (env : Env) (agg : Agg) : Except JsError String :=
  if agg.summary.length > 0 then
    match summaryLines env agg.maxRuleWidth agg.summary with
    | Except.error e => Except.error e
    | Except.ok s => Except.ok ("  " ++ env.blue "Warning summary" ++ "\n" ++ s ++ "\n")
  else Except.ok ""

/-- The value of `ruleUrl` after the nested `try` (index.js:171-179). -/
def ruleUrl (env : Env) (data : RuleData) (ruleId : String) : Option String :=
  match data ruleId with
  | Lookup.value u => u
  | Lookup.threw =>
    match env.getRuleDocsUrl ruleId with
    | Lookup.value u => u
    | Lookup.threw => none

/-- Truthiness of a possibly absent string. -/
def strTruthy : Option String → Bool
  | some s => s != ""
  | none => false

/-- The rule-id text of a row, a hyperlink when a URL is known and supported
(index.js:188-190). -/
def ruleText (env : Env) (data : RuleData) (x : MessageItem) : String :=
  match ruleUrl env data x.ruleId with
  | some url =>
    if strTruthy (some url) && env.supportsHyperlink then env.link (env.dim x.ruleId) url
    else env.dim x.ruleId
  | none => env.dim x.ruleId

/-- The array `line` of a message row before the optional `splice` (index.js:181-191). -/
def rowFields (env : Env) (data : RuleData) (agg : Agg) (x : MessageItem) :
    Except JsError (List String) :=
  match repeatSpaces ((agg.maxLineWidth : Int) - (x.lineWidth : Int)) with
  | Except.error e => Except.error e
  | Except.ok padLine =>
    match repeatSpaces ((agg.maxColumnWidth : Int) - (x.columnWidth : Int)) with
    | Except.error e => Except.error e
    | Except.ok padColumn =>
      match repeatSpaces ((agg.maxMessageWidth : Int) - (x.messageWidth : Int)) with
      | Except.error e => Except.error e
      | Except.ok padMessage =>
        Except.ok
          [ "",
            if x.severity = "warning" then "warning" else "error",
            padLine ++ env.dim (x.line ++ env.gray ":" ++ x.column),
            padColumn ++ x.message,
            padMessage ++ ruleText env data x ]

/-- The text a line item is mapped to (index.js:159-201). -/
def renderItem (env : Env) (data : RuleData) (agg : Agg) : LineItem → Except JsError String
  | LineItem.header _ relativeFilePath firstLineCol =>
    Except.ok ("  " ++ env.underline relativeFilePath
      ++ (if agg.showLineNumbers then env.hiddenDimGray (":" ++ firstLineCol) else ""))
  | LineItem.message x =>
    match rowFields env data agg x with
    | Except.error e => Except.error e
    | Except.ok line =>
      Except.ok ("  ".intercalate (if agg.showLineNumbers then line else line.eraseIdx 2))
  | LineItem.separator => Except.ok ""

/-- The array `lines.map(...)`. -/
def renderItems (env : Env) (data : RuleData) (agg : Agg) :
    List LineItem → Except JsError (List String)
  | [] => Except.ok []
  | item :: rest =>
    match renderItem env data agg item with
    | Except.error e => Except.error e
    | Except.ok s =>
      match renderItems env data agg rest with
      | Except.error e => Except.error e
      | Except.ok t => Except.ok (s :: t)

/-- The "Error details" block (index.js:154-203). -/
def errorBlock (env : Env) (data : RuleData) (agg : Agg) : Except JsError String :=
  if agg.errorCount > 0 then
    match renderItems env data agg agg.lines with
    | Except.error e => Except.error e
    | Except.ok rows =>
      Except.ok ("  " ++ env.blue "Error details" ++ "\n" ++ "\n".intercalate rows ++ "\n\n")
  else Except.ok ""

/-- The totals appended at index.js:205-213. -/
def totals (env : Env) (agg : Agg) : String :=
  (if agg.warningCount > 0 then
      "  " ++ env.yellow (toString agg.warningCount ++ " " ++ env.plur "warning" agg.warningCount)
    else "")
  ++ (if agg.errorCount > 0 then
      ", " ++ env.red (toString agg.errorCount ++ " " ++ env.plur "error" agg.errorCount) ++ "\n"
    else "")

/-- The text before the blocks: the newline and the optional iTerm hint (index.js:130-135). -/
def preamble (env : Env) : String :=
  "\n" ++ (if env.isTTY && !env.ci then env.setCwd else "")

/-- The rendering of the accumulators (index.js:130-215). -/
def render (env : Env) (data : RuleData) (agg : Agg) : Except JsError String :=
  match summaryBlock env agg with
  | Except.error e => Except.error e
  | Except.ok summaryText =>
    match errorBlock env data agg with
    | Except.error e => Except.error e
    | Except.ok errorText =>
      Except.ok
        (if (agg.errorCount : Int) + agg.warningCount > 0 then
          preamble env ++ summaryText ++ errorText ++ totals env agg
        else "")

/-- The exported formatter `(results, data) => ...`. -/
def formatter (env : Env) (results : List LintResult) (data : RuleData) : Except JsError String :=
  render env data (aggregate env results)

/-! ## A plain environment -/

/-- An environment without colour or hyperlink support, whose display width is the number of
characters: `chalk` at level 0 returns its argument, and `plur` adds `s` unless the count is
1 or -1. -/
def plainEnv : Env :=
  { stringWidth := String.length
    relative := fun p => p
    bold := fun s => s
    blue := fun s => s
    gray := fun s => s
    yellow := fun s => s
    red := fun s => s
    dim := fun s => s
    underline := fun s => s
    hiddenDimGray := fun s => s
    isTTY := false
    ci := false
    setCwd := ""
    supportsHyperlink := false
    link := fun text _ => text
    getRuleDocsUrl := fun _ => Lookup.threw
    plur := fun word count => if count.natAbs = 1 then word else word ++ "s" }

/-- A `data` argument without `rulesMeta`: every lookup throws. -/
def noData : RuleData := fun _ => Lookup.threw

/-! ## Specification-side definitions -/

/-- The ordering rule of the specification for files: `a` should precede `b` when `a` has no
errors and `b` has some, when both have errors and `a` has more, or when the error counts
are equal and `a` has more warnings. -/
def shouldPrecede (a b : LintResult) : Prop :=
  (a.errorCount = 0 ∧ 0 < b.errorCount)
  ∨ (0 < a.errorCount ∧ 0 < b.errorCount ∧ b.errorCount < a.errorCount)
  ∨ (a.errorCount = b.errorCount ∧ b.warningCount < a.warningCount)

instance (a b : LintResult) : Decidable (shouldPrecede a b) := by
  unfold shouldPrecede; infer_instance

/-- Every message of every result, in input order. -/
def allMessages (results : List LintResult) : List LintMessage :=
  results.flatMap (fun r => r.messages)

/-- The classification rule of the specification: a message counts as an error when `fatal` is
true, or its severity is the number 2, or its severity is the string "error". -/
def classifiedError (m : LintMessage) : Prop :=
  m.fatal = some true ∨ m.severity = Severity.num 2 ∨ m.severity = Severity.str "error"

instance (m : LintMessage) : Decidable (classifiedError m) := by
  unfold classifiedError; infer_instance

/-- The number of messages, over all results, that the rule classifies as errors. -/
def errorMessageCount (results : List LintResult) : Nat :=
  ((allMessages results).filter (fun m => decide (classifiedError m))).length

/-- The number of messages, over all results, that the rule classifies as warnings. -/
def warningMessageCount (results : List LintResult) : Nat :=
  ((allMessages results).filter (fun m => decide (¬ classifiedError m))).length

/-- The results that are not skipped: those with a non-empty `messages`. -/
def retained (results : List LintResult) : List LintResult :=
  results.filter (fun r => decide (r.messages ≠ []))

/-- The header position a `messages` array gives in its current order: `line:column` of its
first severity-2 message, or of its first message when it has none. -/
def headerPosition : List LintMessage → String
  | [] => ""
  | first :: rest => firstLineCol first (first :: rest)

/-- Whether a message is folded into the summary under the key `k`: it is not classified as an
error and its `ruleId` is stored under `k`. -/
def summarizedUnder (k : String) (m : LintMessage) : Bool :=
  decide (¬ classifiedError m ∧ ruleKey m.ruleId = k)

/-- The number of messages, over all results, that are not classified as errors and carry the
rule key `k`. -/
def summaryCountSpec (k : String) (results : List LintResult) : Nat :=
  ((allMessages results).filter (summarizedUnder k)).length

/-- A list with every element kept at its first occurrence only. -/
def firstSeen (l : List String) : List String := (l.reverse.dedup).reverse

/-- The paths of the results that have a message summarised under `k`, in processing order,
each at its first occurrence. -/
def summaryFilesSpec (k : String) (results : List LintResult) : List String :=
  firstSeen (((jsSort compareResults results).filter
    (fun r => (r.messages.filter (summarizedUnder k)).length ≠ 0)).map (fun r => r.filePath))

/-- The `nr` of `summary[k]`, 0 when the key is absent. -/
def nrOf (summary : List (String × SummaryEntry)) (k : String) : Nat :=
  match summaryGet summary k with
  | some e => e.nr
  | none => 0

/-- The `files` of `summary[k]`, empty when the key is absent. -/
def filesOf (summary : List (String × SummaryEntry)) (k : String) : List String :=
  match summaryGet summary k with
  | some e => e.files
  | none => []

/-- The severity label printed in a row (index.js:183). -/
def severityLabel (x : MessageItem) : String :=
  if x.severity = "warning" then "warning" else "error"

/-- The text of a message row that precedes the message text: the joined fields before the
message field and the padding that opens the message field. -/
def messagePrefix (env : Env) (agg : Agg) (x : MessageItem) : String :=
  if agg.showLineNumbers then
    "" ++ "  " ++ severityLabel x ++ "  "
      ++ (spaces (agg.maxLineWidth - x.lineWidth) ++ env.dim (x.line ++ env.gray ":" ++ x.column))
      ++ "  " ++ spaces (agg.maxColumnWidth - x.columnWidth)
  else "" ++ "  " ++ severityLabel x ++ "  " ++ spaces (agg.maxColumnWidth - x.columnWidth)

/-- The text of a message row between the message text and the rule-id text: the field
separator and the padding that opens the rule-id field. -/
def ruleGap (agg : Agg) (x : MessageItem) : String :=
  "  " ++ spaces (agg.maxMessageWidth - x.messageWidth)

/-- The display column at which every message text starts: two spaces, the label, two spaces
and, with line numbers, the widest line, a colon, the widest column and two spaces. -/
def messageColumn (env : Env) (agg : Agg) : Nat :=
  if agg.showLineNumbers then
    env.stringWidth "error" + agg.maxLineWidth + agg.maxColumnWidth + 7
  else env.stringWidth "error" + 4

/-- The display column at which every rule-id text starts: after the widest message and two
spaces. -/
def ruleColumn (env : Env) (agg : Agg) : Nat :=
  messageColumn env agg + agg.maxMessageWidth + 2

/-- The relation between the message rows collected so far and the running maxima: every row is
tagged "error", carries the measured widths of its own texts, none above the maxima, and while
no line or column number has been seen every column text is "0". -/
def RowsMeasured (env : Env) (st : Agg) : Prop :=
  (∀ x, LineItem.message x ∈ st.lines →
    x.severity = "error"
    ∧ x.lineWidth = env.stringWidth x.line
    ∧ x.columnWidth = env.stringWidth x.column
    ∧ x.messageWidth = env.stringWidth x.message
    ∧ x.lineWidth ≤ st.maxLineWidth
    ∧ x.columnWidth ≤ st.maxColumnWidth
    ∧ x.messageWidth ≤ st.maxMessageWidth
    ∧ (st.showLineNumbers = false → x.columnWidth = env.stringWidth "0"))
  ∧ (st.showLineNumbers = false → st.maxColumnWidth ≤ env.stringWidth "0")

/-- A message of the alignment example: an error on line 1. -/
def alignmentFirst : LintMessage :=
  { line := some 1, column := some 1, severity := Severity.num 2, fatal := none,
    ruleId := RuleId.str "semi", message := "Missing semicolon." }

/-- The alignment example: one file with errors on line 1 and on line 12. -/
def alignmentInput : List LintResult :=
  [{ filePath := "a.js"
     messages := [alignmentFirst,
                  { line := some 12, column := some 100, severity := Severity.num 2,
                    fatal := none, ruleId := RuleId.str "no-undef",
                    message := "x is not defined" }]
     errorCount := 2
     warningCount := 0 }]

/-- The pair of counts the file comparator reads. -/
def resultKey (r : LintResult) : Int × Int := (r.errorCount, r.warningCount)

/-- The file comparator as a function of the two pairs of counts. -/
def compareKeys (a b : Int × Int) : Int :=
  if a.1 = b.1 then b.2 - a.2
  else if a.1 = 0 then -1
  else if b.1 = 0 then 1
  else b.1 - a.1

/-- The line items one retained result contributes besides the separator: its header when it
has an error-classified message, then one row per error-classified message in sorted order. -/
def resultItems (env : Env) (r : LintResult) : List LineItem :=
  (if trueErrorCount r.messages > 0 then
      [LineItem.header r.filePath (env.relative r.filePath) (headerPosition r.messages)]
    else [])
  ++ ((jsSort compareMessages r.messages).filter isError).map
      (fun m => LineItem.message (messageItem env m))

/-- A warning-only file followed by a file with one error. -/
def warningThenError : List LintResult :=
  [{ filePath := "a.js"
     messages := [{ line := some 1, column := some 1, severity := Severity.num 1, fatal := none,
                    ruleId := RuleId.str "no-console",
                    message := "Unexpected console statement." }]
     errorCount := 0
     warningCount := 1 },
   { filePath := "b.js"
     messages := [{ line := some 2, column := some 3, severity := Severity.num 2, fatal := none,
                    ruleId := RuleId.str "semi", message := "Missing semicolon." }]
     errorCount := 1
     warningCount := 0 }]

/-- Two files with one error each. -/
def twoErrorFiles : List LintResult :=
  [{ filePath := "a.js"
     messages := [{ line := some 1, column := some 1, severity := Severity.num 2, fatal := none,
                    ruleId := RuleId.str "no-undef", message := "x is not defined" }]
     errorCount := 1
     warningCount := 0 },
   { filePath := "b.js"
     messages := [{ line := some 2, column := some 3, severity := Severity.num 2, fatal := none,
                    ruleId := RuleId.str "semi", message := "Missing semicolon." }]
     errorCount := 1
     warningCount := 0 }]

/-- A file whose first message is a warning on line 1 and whose second message has the
severity "error" on line 5. -/
def stringSeverityInput : List LintResult :=
  [{ filePath := "a.js"
     messages := [{ line := some 1, column := some 1, severity := Severity.num 1, fatal := none,
                    ruleId := RuleId.str "no-console",
                    message := "Unexpected console statement." },
                  { line := some 5, column := some 2, severity := Severity.str "error",
                    fatal := none, ruleId := RuleId.str "no-undef",
                    message := "x is not defined" }]
     errorCount := 1
     warningCount := 1 }]

/-- The largest number of a list, 0 for the empty list. -/
def widest (ws : List Nat) : Nat := ws.foldr max 0

/-- Whether a line item is a message row. -/
def isMessageItem : LineItem → Bool
  | LineItem.message _ => true
  | _ => false

/-- The sum of the counts of all summary entries. -/
def summaryTotal (summary : List (String × SummaryEntry)) : Nat :=
  (summary.map (fun entry => entry.2.nr)).sum

/-- The scenario of one file with a single severity-1 message of the rule `no-console`. -/
def singleWarning : List LintResult :=
  [{ filePath := "a.js"
     messages := [{ line := some 1, column := some 1, severity := Severity.num 1, fatal := none,
                    ruleId := RuleId.str "no-console",
                    message := "Unexpected console statement." }]
     errorCount := 0
     warningCount := 1 }]

/-- The scenario of one file with a single severity-2 message of the rule `no-unused-vars`. -/
def singleError : List LintResult :=
  [{ filePath := "a.js"
     messages := [{ line := some 1, column := some 1, severity := Severity.num 2,
                    fatal := some false, ruleId := RuleId.str "no-unused-vars",
                    message := "x is defined but never used." }]
     errorCount := 1
     warningCount := 0 }]

/-- The result ESLint reports for an ignored file, with the given `warningCount` field. -/
def ignoredFile (warningCount : Int) : List LintResult :=
  [{ filePath := "ignored.js"
     messages := [{ line := none, column := none, severity := Severity.num 1,
                    fatal := some false, ruleId := RuleId.null,
                    message := "File ignored because of a matching ignore pattern." }]
     errorCount := 0
     warningCount := warningCount }]

/-- The comparator's "less than" (a negative result) is a strict weak order on the elements of
`l`: it is asymmetric, and "not less than" is transitive. Sort algorithms consult only whether
a comparison is negative, so on such a list every stable sort returns the same order. -/
def StrictWeakOn {α : Type} (cmp : α → α → Int) (l : List α) : Prop :=
  (∀ a ∈ l, ∀ b ∈ l, cmp a b < 0 → 0 ≤ cmp b a)
  ∧ (∀ a ∈ l, ∀ b ∈ l, ∀ c ∈ l, 0 ≤ cmp a b → 0 ≤ cmp b c → 0 ≤ cmp a c)

instance {α : Type} (cmp : α → α → Int) (l : List α) : Decidable (StrictWeakOn cmp l) := by
  unfold StrictWeakOn; infer_instance

/-- The text a line item is rendered as when no padding count is negative. -/
def lineText (env : Env) (data : RuleData) (agg : Agg) : LineItem → String
  | LineItem.header _ relativeFilePath firstLineCol =>
    "  " ++ env.underline relativeFilePath
      ++ (if agg.showLineNumbers then env.hiddenDimGray (":" ++ firstLineCol) else "")
  | LineItem.message x =>
    messagePrefix env agg x ++ x.message ++ ruleGap agg x ++ ruleText env data x
  | LineItem.separator => ""

/-- The escape character that opens a styling sequence. -/
def escapeChar : Char := Char.ofNat 27

/-- The state of a scan for styling sequences: in plain text, after an escape character, or
inside a sequence `ESC [ ...` of which `pending` parameter characters have been read. -/
inductive Scan where
  | normal
  | escape
  | csi (pending : Nat)

/-- The number of characters outside complete styling sequences `ESC [ parameters letter`;
the characters of a sequence that is never completed count, the escape character does not. -/
def scanWidth : Scan → List Char → Nat
  | Scan.normal, [] => 0
  | Scan.escape, [] => 0
  | Scan.csi pending, [] => pending + 1
  | Scan.normal, c :: cs =>
    if c = escapeChar then scanWidth Scan.escape cs else 1 + scanWidth Scan.normal cs
  | Scan.escape, c :: cs =>
    if c = '[' then scanWidth (Scan.csi 0) cs
    else if c = escapeChar then scanWidth Scan.escape cs
    else 1 + scanWidth Scan.normal cs
  | Scan.csi pending, c :: cs =>
    if c.isDigit || c = ';' then scanWidth (Scan.csi (pending + 1)) cs
    else if c.isAlpha then scanWidth Scan.normal cs
    else pending + 1
      + (if c = escapeChar then scanWidth Scan.escape cs else 1 + scanWidth Scan.normal cs)

/-- A display width that ignores styling sequences. -/
def ansiWidth (s : String) : Nat := scanWidth Scan.normal s.toList

/-- A style as `chalk` applies it with colours enabled: an opening and a closing sequence
around the text. -/
def ansiStyle (opening closing : String) (s : String) : String :=
  String.singleton escapeChar ++ "[" ++ opening ++ "m" ++ s
    ++ String.singleton escapeChar ++ "[" ++ closing ++ "m"

/-- An environment with colours enabled, whose display width ignores the styling sequences. -/
def ansiEnv : Env :=
  { stringWidth := ansiWidth
    relative := fun p => p
    bold := ansiStyle "1" "22"
    blue := ansiStyle "34" "39"
    gray := ansiStyle "90" "39"
    yellow := ansiStyle "33" "39"
    red := ansiStyle "31" "39"
    dim := ansiStyle "2" "22"
    underline := ansiStyle "4" "24"
    hiddenDimGray := fun s => ansiStyle "8" "28" (ansiStyle "2" "22" (ansiStyle "90" "39" s))
    isTTY := false
    ci := false
    setCwd := ""
    supportsHyperlink := false
    link := fun text _ => text
    getRuleDocsUrl := fun _ => Lookup.threw
    plur := fun word count => if count.natAbs = 1 then word else word ++ "s" }

/-- The property names a plain object inherits from `Object.prototype`; `summary[k]` is truthy
for them before anything is stored, which the association list does not model. -/
def objectPrototypeKeys : List String :=
  ["constructor", "__defineGetter__", "__defineSetter__", "hasOwnProperty",
   "__lookupGetter__", "__lookupSetter__", "isPrototypeOf", "propertyIsEnumerable",
   "toString", "valueOf", "__proto__", "toLocaleString"]

/-! ## Lemmas on the sort -/

theorem insertSorted_perm {α : Type} (cmp : α → α → Int) (pivot : α) (l : List α) :
    (insertSorted cmp pivot l).Perm (pivot :: l) := by
  induction l with
  | nil => exact List.Perm.refl _
  | cons y ys ih =>
    unfold insertSorted
    split
    · exact List.Perm.refl _
    · exact (List.Perm.cons y ih).trans (List.Perm.swap pivot y ys)

theorem foldl_insertSorted_perm {α : Type} (cmp : α → α → Int) (xs acc : List α) :
    (xs.foldl (fun acc x => insertSorted cmp x acc) acc).Perm (acc ++ xs) := by
  induction xs generalizing acc with
  | nil => simp
  | cons x xs ih =>
    simp only [List.foldl_cons]
    refine (ih _).trans ?_
    refine ((insertSorted_perm cmp x acc).append_right xs).trans ?_
    have hmid : (acc ++ x :: xs).Perm (x :: (acc ++ xs)) := List.perm_middle
    simpa using hmid.symm

theorem jsSort_perm {α : Type} (cmp : α → α → Int) (xs : List α) :
    (jsSort cmp xs).Perm xs := by
  simpa [jsSort] using foldl_insertSorted_perm cmp xs []

theorem mem_jsSort {α : Type} (cmp : α → α → Int) (xs : List α) (x : α) :
    x ∈ jsSort cmp xs ↔ x ∈ xs :=
  (jsSort_perm cmp xs).mem_iff

theorem insertSorted_pairwise {α : Type} (cmp : α → α → Int)
    (htrans : ∀ a b c, cmp a b ≤ 0 → cmp b c ≤ 0 → cmp a c ≤ 0)
    (hflip : ∀ a b, 0 ≤ cmp a b → cmp b a ≤ 0) (pivot : α) (l : List α)
    (h : l.Pairwise (fun a b => cmp a b ≤ 0)) :
    (insertSorted cmp pivot l).Pairwise (fun a b => cmp a b ≤ 0) := by
  induction l with
  | nil => simp [insertSorted]
  | cons y ys ih =>
    rw [List.pairwise_cons] at h
    unfold insertSorted
    split
    · rename_i hlt
      refine List.pairwise_cons.mpr ⟨?_, List.pairwise_cons.mpr h⟩
      intro z hz
      rcases List.mem_cons.mp hz with rfl | hz
      · omega
      · exact htrans _ _ _ (by omega) (h.1 z hz)
    · rename_i hge
      refine List.pairwise_cons.mpr ⟨?_, ih h.2⟩
      intro z hz
      rcases List.mem_cons.mp ((insertSorted_perm cmp pivot ys).mem_iff.mp hz) with rfl | hz
      · exact hflip _ _ (by omega)
      · exact h.1 z hz

theorem jsSort_pairwise {α : Type} (cmp : α → α → Int)
    (htrans : ∀ a b c, cmp a b ≤ 0 → cmp b c ≤ 0 → cmp a c ≤ 0)
    (hflip : ∀ a b, 0 ≤ cmp a b → cmp b a ≤ 0) (xs : List α) :
    (jsSort cmp xs).Pairwise (fun a b => cmp a b ≤ 0) := by
  have key : ∀ (xs acc : List α), acc.Pairwise (fun a b => cmp a b ≤ 0) →
      (xs.foldl (fun acc x => insertSorted cmp x acc) acc).Pairwise (fun a b => cmp a b ≤ 0) := by
    intro xs
    induction xs with
    | nil => intro acc h; simpa using h
    | cons x xs ih =>
      intro acc h
      simp only [List.foldl_cons]
      exact ih _ (insertSorted_pairwise cmp htrans hflip x acc h)
  exact key xs [] List.Pairwise.nil

theorem insertSorted_append_of_le {α : Type} (cmp : α → α → Int) (pivot : α) (l : List α)
    (h : ∀ y ∈ l, 0 ≤ cmp pivot y) : insertSorted cmp pivot l = l ++ [pivot] := by
  induction l with
  | nil => rfl
  | cons y ys ih =>
    have hy : ¬ cmp pivot y < 0 := by
      have := h y (List.mem_cons_self _ _); omega
    simp only [insertSorted, hy, if_false, List.cons_append]
    rw [ih (fun z hz => h z (List.mem_cons_of_mem _ hz))]

/-- A list in which every element compares at or above its predecessors is left unchanged. -/
theorem jsSort_eq_self {α : Type} (cmp : α → α → Int) (xs : List α)
    (h : xs.Pairwise (fun a b => 0 ≤ cmp b a)) : jsSort cmp xs = xs := by
  have key : ∀ (xs acc : List α), (acc ++ xs).Pairwise (fun a b => 0 ≤ cmp b a) →
      xs.foldl (fun acc x => insertSorted cmp x acc) acc = acc ++ xs := by
    intro xs
    induction xs with
    | nil => intro acc _; simp
    | cons x xs ih =>
      intro acc h
      simp only [List.foldl_cons]
      have hx : insertSorted cmp x acc = acc ++ [x] := by
        apply insertSorted_append_of_le
        intro y hy
        have := List.pairwise_append.mp h
        exact this.2.2 y hy x (List.mem_cons_self _ _)
      rw [hx, ih (acc ++ [x]) (by simpa using h)]
      simp
  simpa [jsSort] using key xs [] (by simpa using h)

/-! ## Lemmas on the file comparator -/

theorem compareResults_trans (a b c : LintResult)
    (hab : compareResults a b ≤ 0) (hbc : compareResults b c ≤ 0) : compareResults a c ≤ 0 := by
  unfold compareResults at *
  split_ifs at * <;> omega

theorem compareResults_flip (a b : LintResult) (h : 0 ≤ compareResults a b) :
    compareResults b a ≤ 0 := by
  unfold compareResults at *
  split_ifs at * <;> omega

theorem compareResults_flip_neg (a b : LintResult) (h : compareResults a b < 0) :
    0 < compareResults b a := by
  unfold compareResults at *
  split_ifs at * <;> omega

theorem compareResults_neg_of_shouldPrecede (a b : LintResult) (h : shouldPrecede a b) :
    compareResults a b < 0 := by
  unfold shouldPrecede at h
  unfold compareResults
  split_ifs <;> omega

/-! ## Lemmas on the running totals -/

theorem isError_iff (m : LintMessage) : isError m = true ↔ classifiedError m := by
  simp [isError, classifiedError, fatalTruthy, or_assoc]

theorem foldl_processMessage_counts (env : Env) (filePath : String) (ms : List LintMessage)
    (st : Agg) :
    (ms.foldl (processMessage env filePath) st).errorCount = st.errorCount
    ∧ (ms.foldl (processMessage env filePath) st).warningCount = st.warningCount := by
  induction ms generalizing st with
  | nil => exact ⟨rfl, rfl⟩
  | cons m ms ih =>
    simp only [List.foldl_cons]
    exact ⟨(ih _).1, (ih _).2⟩

theorem processResult_of_nil (env : Env) (st : Agg) (r : LintResult) (h : r.messages = []) :
    processResult env st r = st := by
  simp [processResult, h]

theorem processResult_errorCount (env : Env) (st : Agg) (r : LintResult) :
    (processResult env st r).errorCount = st.errorCount + trueErrorCount r.messages := by
  unfold processResult
  split
  · rename_i h; simp [h, trueErrorCount]
  · rw [(foldl_processMessage_counts env _ _ _).1]; rfl

theorem processResult_warningCount (env : Env) (st : Agg) (r : LintResult) :
    (processResult env st r).warningCount
      = st.warningCount + (if r.messages ≠ [] then r.warningCount else 0) := by
  unfold processResult
  split
  · rename_i h; simp [h]
  · rename_i first rest h
    rw [(foldl_processMessage_counts env _ _ _).2]
    simp [openResult, h]

theorem foldl_processResult_errorCount (env : Env) (l : List LintResult) (st : Agg) :
    (l.foldl (processResult env) st).errorCount
      = st.errorCount + (l.map (fun r => trueErrorCount r.messages)).sum := by
  induction l generalizing st with
  | nil => simp
  | cons r l ih =>
    simp only [List.foldl_cons, List.map_cons, List.sum_cons]
    rw [ih, processResult_errorCount]; omega

theorem foldl_processResult_warningCount (env : Env) (l : List LintResult) (st : Agg) :
    (l.foldl (processResult env) st).warningCount
      = st.warningCount
        + (l.map (fun r => if r.messages ≠ [] then r.warningCount else 0)).sum := by
  induction l generalizing st with
  | nil => simp
  | cons r l ih =>
    simp only [List.foldl_cons, List.map_cons, List.sum_cons]
    rw [ih, processResult_warningCount]; omega

theorem sum_trueErrorCount (l : List LintResult) :
    (l.map (fun r => trueErrorCount r.messages)).sum = errorMessageCount l := by
  have hfun : (fun m : LintMessage => decide (classifiedError m)) = isError := by
    funext m
    rcases h : isError m with _ | _
    · have : ¬ classifiedError m := fun hc => by
        rw [(isError_iff m).mpr hc] at h; exact Bool.noConfusion h
      simpa using this
    · simpa using (isError_iff m).mp h
  unfold errorMessageCount allMessages
  rw [hfun]
  induction l with
  | nil => rfl
  | cons r l ih =>
    simp only [List.map_cons, List.sum_cons, List.flatMap_cons, List.filter_append,
      List.length_append, ih]
    rfl

theorem sum_retained_warningCount (l : List LintResult) :
    (l.map (fun r => if r.messages ≠ [] then r.warningCount else 0)).sum
      = ((retained l).map (fun r => r.warningCount)).sum := by
  unfold retained
  induction l with
  | nil => rfl
  | cons r l ih =>
    by_cases h : r.messages = []
    · simpa [h, List.filter_cons] using ih
    · simpa [h, List.filter_cons] using ih

theorem aggregate_errorCount (env : Env) (results : List LintResult) :
    (aggregate env results).errorCount = errorMessageCount results := by
  unfold aggregate
  rw [foldl_processResult_errorCount, ← sum_trueErrorCount]
  simpa [Agg.init] using ((jsSort_perm compareResults results).map _).sum_eq

theorem aggregate_warningCount (env : Env) (results : List LintResult) :
    (aggregate env results).warningCount = ((retained results).map (fun r => r.warningCount)).sum := by
  unfold aggregate
  rw [foldl_processResult_warningCount, ← sum_retained_warningCount]
  simpa [Agg.init] using ((jsSort_perm compareResults results).map _).sum_eq

theorem aggregate_of_all_empty (env : Env) (results : List LintResult)
    (h : ∀ r ∈ results, r.messages = []) : aggregate env results = Agg.init := by
  have key : ∀ (l : List LintResult) (st : Agg), (∀ r ∈ l, r.messages = []) →
      l.foldl (processResult env) st = st := by
    intro l
    induction l with
    | nil => intro st _; rfl
    | cons r l ih =>
      intro st hl
      simp only [List.foldl_cons]
      rw [processResult_of_nil env st r (hl r (List.mem_cons_self _ _))]
      exact ih st (fun x hx => hl x (List.mem_cons_of_mem _ hx))
  exact key _ _ (fun r hr => h r ((mem_jsSort compareResults results r).mp hr))

/-! ## Claims -/

/-- C1: when every result has an empty `messages` sequence the formatter returns exactly the
empty string, whatever the `errorCount` and `warningCount` fields of the results are. -/
theorem formatter_of_all_empty (env : Env) (data : RuleData) (results : List LintResult)
    (h : ∀ r ∈ results, r.messages = []) : formatter env results data = Except.ok "" := by
  unfold formatter
  rw [aggregate_of_all_empty env results h]
  rfl

/-- Witness for C1: two files without messages whose own counts are not zero. -/
theorem formatter_of_all_empty_witness :
    (∀ r ∈ [({ filePath := "a.js", messages := [], errorCount := 3, warningCount := 4 } : LintResult),
        { filePath := "b.js", messages := [], errorCount := 0, warningCount := 7 }],
      r.messages = [])
    ∧ formatter plainEnv
        [{ filePath := "a.js", messages := [], errorCount := 3, warningCount := 4 },
         { filePath := "b.js", messages := [], errorCount := 0, warningCount := 7 }] noData
      = Except.ok "" :=
  ⟨by simp, formatter_of_all_empty plainEnv noData _ (by simp)⟩

/-- C4: the file comparator is negative in each of the three cases of the ordering rule, and the
order in which results are processed is a permutation of the input that is sorted by the
comparator, so no result is processed before one that should precede it. -/
theorem processing_order_sorted (results : List LintResult) :
    (∀ a b, shouldPrecede a b → compareResults a b < 0)
    ∧ (jsSort compareResults results).Perm results
    ∧ (jsSort compareResults results).Pairwise (fun a b => compareResults a b ≤ 0)
    ∧ (jsSort compareResults results).Pairwise (fun a b => ¬ shouldPrecede b a) := by
  have hsorted := jsSort_pairwise compareResults compareResults_trans compareResults_flip results
  refine ⟨compareResults_neg_of_shouldPrecede, jsSort_perm _ _, hsorted, ?_⟩
  refine hsorted.imp ?_
  intro a b hab hba
  have h1 := compareResults_neg_of_shouldPrecede b a hba
  have h2 := compareResults_flip_neg b a h1
  omega

/-- C6: the error total equals the number of messages, over all results, whose `fatal` is true
or whose severity is 2 or "error"; the `errorCount` fields of the results play no part. -/
theorem errorCount_eq_classified (env : Env) (results : List LintResult) :
    (aggregate env results).errorCount
      = ((allMessages results).filter (fun m => decide
          (m.fatal = some true ∨ m.severity = Severity.num 2
            ∨ m.severity = Severity.str "error"))).length := by
  rw [aggregate_errorCount]
  rfl

/-- C7: the warning total equals the sum of the `warningCount` fields of exactly the results
whose `messages` is non-empty, however the messages are classified. -/
theorem warningCount_eq_sum_retained (env : Env) (results : List LintResult) :
    (aggregate env results).warningCount
      = ((results.filter (fun r => decide (r.messages ≠ []))).map
          (fun r => r.warningCount)).sum := by
  rw [aggregate_warningCount]
  rfl

/-- C2: the result ESLint reports for an ignored file (one warning-level message whose `ruleId`
is `null`) makes the formatter throw: the summary key is "null", of length 4, while
`maxRuleWidth` is 0, so `" ".repeat(-4)` raises a `RangeError`. -/
theorem formatter_throws_on_null_ruleId (env : Env) (data : RuleData) :
    formatter env
      [{ filePath := "ignored.js"
         messages := [{ line := none, column := none, severity := Severity.num 1,
                        fatal := some false, ruleId := RuleId.null,
                        message := "File ignored because of a matching ignore pattern." }]
         errorCount := 0
         warningCount := 1 }] data
      = Except.error JsError.rangeError :=
  rfl

/-- C5, as stated, fails: a fatal message on line 1 and a non-fatal severity-2 message on line 5
are both error-classified, yet the comparator orders the line-1 message after the other. -/
theorem compareMessages_ignores_line_across_fatal :
    isError { line := some 1, column := some 1, severity := Severity.num 2, fatal := some true,
              ruleId := RuleId.null, message := "Parsing error" }
      = isError { line := some 5, column := some 1, severity := Severity.num 2,
                  fatal := none, ruleId := RuleId.str "no-undef", message := "x is not defined" }
    ∧ compareMessages
        { line := some 1, column := some 1, severity := Severity.num 2, fatal := some true,
          ruleId := RuleId.null, message := "Parsing error" }
        { line := some 5, column := some 1, severity := Severity.num 2, fatal := none,
          ruleId := RuleId.str "no-undef", message := "x is not defined" } = 1
    ∧ compareMessages
        { line := some 5, column := some 1, severity := Severity.num 2, fatal := none,
          ruleId := RuleId.str "no-undef", message := "x is not defined" }
        { line := some 1, column := some 1, severity := Severity.num 2, fatal := some true,
          ruleId := RuleId.null, message := "Parsing error" } = -1 := by
  decide

/-- C5, amended: for two messages whose `fatal` fields are identical and whose `severity` fields
are identical, the comparator orders the one with the smaller line number first, and when the
lines are equal the one with the smaller column first. -/
theorem compareMessages_same_kind (a b : LintMessage)
    (hfatal : a.fatal = b.fatal) (hseverity : a.severity = b.severity) :
    (∀ la lb, a.line = some la → b.line = some lb → la < lb →
        compareMessages a b < 0 ∧ 0 < compareMessages b a)
    ∧ (a.line = b.line → ∀ ca cb, a.column = some ca → b.column = some cb → ca < cb →
        compareMessages a b < 0 ∧ 0 < compareMessages b a) := by
  constructor
  · intro la lb ha hb hlt
    have hne : ¬ la = lb := by omega
    have hne2 : ¬ lb = la := by omega
    have hnlt : ¬ lb < la := by omega
    simp [compareMessages, hfatal, hseverity, ha, hb, jsLt, hlt, hne, hne2, hnlt]
  · intro hline ca cb ha hb hlt
    have hnlt : ¬ cb < ca := by omega
    simp [compareMessages, hfatal, hseverity, hline, ha, hb, jsLt, hlt, hnlt]

/-- Witness for the amended C5: two severity-2 messages on lines 3 and 7. -/
theorem compareMessages_same_kind_witness :
    compareMessages
        { line := some 3, column := some 9, severity := Severity.num 2, fatal := none,
          ruleId := RuleId.str "semi", message := "Missing semicolon." }
        { line := some 7, column := some 2, severity := Severity.num 2, fatal := none,
          ruleId := RuleId.str "no-undef", message := "x is not defined" } < 0
    ∧ 0 < compareMessages
        { line := some 7, column := some 2, severity := Severity.num 2, fatal := none,
          ruleId := RuleId.str "no-undef", message := "x is not defined" }
        { line := some 3, column := some 9, severity := Severity.num 2, fatal := none,
          ruleId := RuleId.str "semi", message := "Missing semicolon." } :=
  (compareMessages_same_kind
    { line := some 3, column := some 9, severity := Severity.num 2, fatal := none,
      ruleId := RuleId.str "semi", message := "Missing semicolon." }
    { line := some 7, column := some 2, severity := Severity.num 2, fatal := none,
      ruleId := RuleId.str "no-undef", message := "x is not defined" } rfl rfl).1 3 7 rfl rfl
    (by decide)

/-- C8, as stated, fails: for one file with a single warning-level message and a `warningCount`
field of 5, the warning total is 5 although one message is classified as a warning. -/
theorem warningCount_not_classified_count :
    (aggregate plainEnv
      [{ filePath := "a.js"
         messages := [{ line := some 1, column := some 1, severity := Severity.num 1,
                        fatal := none, ruleId := RuleId.str "no-console",
                        message := "Unexpected console statement." }]
         errorCount := 0
         warningCount := 5 }]).warningCount = 5
    ∧ warningMessageCount
      [{ filePath := "a.js"
         messages := [{ line := some 1, column := some 1, severity := Severity.num 1,
                        fatal := none, ruleId := RuleId.str "no-console",
                        message := "Unexpected console statement." }]
         errorCount := 0
         warningCount := 5 }] = 1 := by
  constructor
  · rfl
  · decide

/-- C8, amended: the error total equals the number of messages classified as errors; the warning
total is the sum of the `warningCount` fields of the results with messages, and so equals the
number of messages classified as warnings whenever each such result's `warningCount` field is
the number of its warning-classified messages. -/
theorem counts_eq_classified (env : Env) (results : List LintResult)
    (h : ∀ r ∈ results, r.messages ≠ [] →
      r.warningCount = ((r.messages.filter (fun m => decide (¬ classifiedError m))).length : Int)) :
    (aggregate env results).errorCount = errorMessageCount results
    ∧ (aggregate env results).warningCount = (warningMessageCount results : Int) := by
  refine ⟨aggregate_errorCount env results, ?_⟩
  rw [aggregate_warningCount]
  unfold retained warningMessageCount allMessages
  induction results with
  | nil => rfl
  | cons r l ih =>
    have ihl := ih (fun x hx => h x (List.mem_cons_of_mem _ hx))
    have hr := h r (List.mem_cons_self _ _)
    by_cases hm : r.messages = []
    · simpa [List.filter_cons, hm] using ihl
    · have hd : decide (r.messages ≠ []) = true := by simpa using hm
      simp only [List.filter_cons, hd, if_true, List.map_cons,
        List.sum_cons, List.flatMap_cons, List.filter_append, List.length_append, Nat.cast_add]
      rw [ihl, hr hm]

/-- Witness for the amended C8: a file with one warning and one error whose `warningCount`
is 1. -/
theorem counts_eq_classified_witness :
    (aggregate plainEnv
      [{ filePath := "a.js"
         messages := [{ line := some 1, column := some 1, severity := Severity.num 1,
                        fatal := none, ruleId := RuleId.str "no-console",
                        message := "Unexpected console statement." },
                      { line := some 2, column := some 1, severity := Severity.num 2,
                        fatal := none, ruleId := RuleId.str "semi",
                        message := "Missing semicolon." }]
         errorCount := 1
         warningCount := 1 }]).errorCount = 1
    ∧ (aggregate plainEnv
      [{ filePath := "a.js"
         messages := [{ line := some 1, column := some 1, severity := Severity.num 1,
                        fatal := none, ruleId := RuleId.str "no-console",
                        message := "Unexpected console statement." },
                      { line := some 2, column := some 1, severity := Severity.num 2,
                        fatal := none, ruleId := RuleId.str "semi",
                        message := "Missing semicolon." }]
         errorCount := 1
         warningCount := 1 }]).warningCount = 1 := by
  have h := counts_eq_classified plainEnv
      [{ filePath := "a.js"
         messages := [{ line := some 1, column := some 1, severity := Severity.num 1,
                        fatal := none, ruleId := RuleId.str "no-console",
                        message := "Unexpected console statement." },
                      { line := some 2, column := some 1, severity := Severity.num 2,
                        fatal := none, ruleId := RuleId.str "semi",
                        message := "Missing semicolon." }]
         errorCount := 1
         warningCount := 1 }]
      (by decide)
  exact ⟨h.1.trans (by decide), h.2.trans (by decide)⟩

/-! ## Lemmas on a second call -/

theorem insertSorted_map {α β : Type} (f : α → β) (cmpA : α → α → Int) (cmpB : β → β → Int)
    (h : ∀ a b, cmpB (f a) (f b) = cmpA a b) (pivot : α) (l : List α) :
    insertSorted cmpB (f pivot) (l.map f) = (insertSorted cmpA pivot l).map f := by
  induction l with
  | nil => rfl
  | cons y ys ih =>
    simp only [List.map_cons, insertSorted, h]
    split
    · rfl
    · rw [ih]; rfl

theorem jsSort_map {α β : Type} (f : α → β) (cmpA : α → α → Int) (cmpB : β → β → Int)
    (h : ∀ a b, cmpB (f a) (f b) = cmpA a b) (l : List α) :
    jsSort cmpB (l.map f) = (jsSort cmpA l).map f := by
  have key : ∀ (l acc : List α),
      (l.map f).foldl (fun acc x => insertSorted cmpB x acc) (acc.map f)
        = (l.foldl (fun acc x => insertSorted cmpA x acc) acc).map f := by
    intro l
    induction l with
    | nil => intro acc; rfl
    | cons x xs ih =>
      intro acc
      simp only [List.map_cons, List.foldl_cons]
      rw [insertSorted_map f cmpA cmpB h, ih]
  exact key l []

theorem compareResults_nonneg_flip (a b : LintResult) (h : compareResults a b ≤ 0) :
    0 ≤ compareResults b a := by
  unfold compareResults at *
  split_ifs at * <;> omega

/-- Sorting the sorted results again changes nothing. -/
theorem jsSort_compareResults_idem (results : List LintResult) :
    jsSort compareResults (jsSort compareResults results) = jsSort compareResults results := by
  apply jsSort_eq_self
  exact (jsSort_pairwise compareResults compareResults_trans compareResults_flip results).imp
    (fun {a b} hab => compareResults_nonneg_flip a b hab)

theorem trueErrorCount_jsSort (ms : List LintMessage) :
    trueErrorCount (jsSort compareMessages ms) = trueErrorCount ms := by
  unfold trueErrorCount
  exact ((jsSort_perm compareMessages ms).filter isError).length_eq

/-- A result whose messages were sorted by an earlier call is processed like the original
result when the header position and the sorted order are unaffected. -/
theorem processResult_sorted_messages (env : Env) (st : Agg) (r : LintResult)
    (hsort : jsSort compareMessages (jsSort compareMessages r.messages)
      = jsSort compareMessages r.messages)
    (hpos : headerPosition (jsSort compareMessages r.messages) = headerPosition r.messages) :
    processResult env st { r with messages := jsSort compareMessages r.messages }
      = processResult env st r := by
  obtain ⟨filePath, ms, ec, wc⟩ := r
  simp only at hsort hpos ⊢
  cases ms with
  | nil => rfl
  | cons first rest =>
    have hcount := trueErrorCount_jsSort (first :: rest)
    have hlen := (jsSort_perm compareMessages (first :: rest)).length_eq
    cases hs : jsSort compareMessages (first :: rest) with
    | nil => rw [hs] at hlen; simp at hlen
    | cons first2 rest2 =>
      rw [hs] at hpos hsort hcount
      simp only [headerPosition] at hpos
      simp only [processResult, hs, hsort, openResult, hpos, hcount]

theorem insertSorted_sorted_of_strictWeakOn {α : Type} (cmp : α → α → Int) (base : List α)
    (hbase : StrictWeakOn cmp base) (pivot : α) (hp : pivot ∈ base) (l : List α)
    (hl : ∀ y ∈ l, y ∈ base) (h : l.Pairwise (fun a b => 0 ≤ cmp b a)) :
    (insertSorted cmp pivot l).Pairwise (fun a b => 0 ≤ cmp b a) := by
  induction l with
  | nil => simp [insertSorted]
  | cons y ys ih =>
    rw [List.pairwise_cons] at h
    have hy : y ∈ base := hl y (List.mem_cons_self _ _)
    have hys : ∀ z ∈ ys, z ∈ base := fun z hz => hl z (List.mem_cons_of_mem _ hz)
    unfold insertSorted
    split
    · rename_i hlt
      have hyp : 0 ≤ cmp y pivot := hbase.1 pivot hp y hy hlt
      refine List.pairwise_cons.mpr ⟨?_, List.pairwise_cons.mpr h⟩
      intro z hz
      rcases List.mem_cons.mp hz with rfl | hz
      · exact hyp
      · exact hbase.2 z (hys z hz) y hy pivot hp (h.1 z hz) hyp
    · rename_i hge
      refine List.pairwise_cons.mpr ⟨?_, ih hys h.2⟩
      intro z hz
      rcases List.mem_cons.mp ((insertSorted_perm cmp pivot ys).mem_iff.mp hz) with rfl | hz
      · omega
      · exact h.1 z hz

/-- When the comparator's "less than" is a strict weak order on the list, the sorted list has no
element that compares below an earlier one. -/
theorem jsSort_sorted_of_strictWeakOn {α : Type} (cmp : α → α → Int) (l : List α)
    (hl : StrictWeakOn cmp l) : (jsSort cmp l).Pairwise (fun a b => 0 ≤ cmp b a) := by
  have key : ∀ (xs acc : List α), (∀ x ∈ xs, x ∈ l) → (∀ y ∈ acc, y ∈ l) →
      acc.Pairwise (fun a b => 0 ≤ cmp b a) →
      (xs.foldl (fun acc x => insertSorted cmp x acc) acc).Pairwise (fun a b => 0 ≤ cmp b a) := by
    intro xs
    induction xs with
    | nil => intro acc _ _ h; simpa using h
    | cons x xs ih =>
      intro acc hxs hacc h
      simp only [List.foldl_cons]
      refine ih _ (fun z hz => hxs z (List.mem_cons_of_mem _ hz)) ?_
        (insertSorted_sorted_of_strictWeakOn cmp l hl x (hxs x (List.mem_cons_self _ _)) acc
          hacc h)
      intro z hz
      rcases List.mem_cons.mp ((insertSorted_perm cmp x acc).mem_iff.mp hz) with rfl | hz
      · exact hxs z (List.mem_cons_self _ _)
      · exact hacc z hz
  exact key l [] (fun x hx => hx) (fun y hy => absurd hy (List.not_mem_nil y)) List.Pairwise.nil

/-! ## Claims on a second call -/

/-- C3, as stated, fails: for one file whose two errors are reported on line 5 and then on
line 1, the first call prints the header position 5:1 and leaves the messages sorted, so a
second call on the same objects prints the header position 1:1. -/
theorem second_call_differs :
    formatter plainEnv
      [{ filePath := "a.js"
         messages := [{ line := some 5, column := some 1, severity := Severity.num 2,
                        fatal := none, ruleId := RuleId.str "no-undef",
                        message := "x is not defined" },
                      { line := some 1, column := some 1, severity := Severity.num 2,
                        fatal := none, ruleId := RuleId.str "semi",
                        message := "Missing semicolon." }]
         errorCount := 2
         warningCount := 0 }] noData
      = Except.ok ("\n  Error details\n  a.js:5:1\n  error  1:1  Missing semicolon.  semi\n"
          ++ "  error  5:1  x is not defined    no-undef\n\n, 2 errors\n")
    ∧ formatter plainEnv
      (resultsAfterCall
        [{ filePath := "a.js"
           messages := [{ line := some 5, column := some 1, severity := Severity.num 2,
                          fatal := none, ruleId := RuleId.str "no-undef",
                          message := "x is not defined" },
                        { line := some 1, column := some 1, severity := Severity.num 2,
                          fatal := none, ruleId := RuleId.str "semi",
                          message := "Missing semicolon." }]
           errorCount := 2
           warningCount := 0 }]) noData
      = Except.ok ("\n  Error details\n  a.js:1:1\n  error  1:1  Missing semicolon.  semi\n"
          ++ "  error  5:1  x is not defined    no-undef\n\n, 2 errors\n") :=
  ⟨rfl, rfl⟩

/-- A second call gives the first call's string when, for every result, the message sort leaves
the header position unchanged and the sorted messages are a fixed point of the sort. -/
theorem formatter_after_call_of_fixed (env : Env) (data : RuleData) (results : List LintResult)
    (h : ∀ r ∈ results,
      jsSort compareMessages (jsSort compareMessages r.messages)
        = jsSort compareMessages r.messages
      ∧ headerPosition (jsSort compareMessages r.messages) = headerPosition r.messages) :
    formatter env (resultsAfterCall results) data = formatter env results data := by
  have key : ∀ (l : List LintResult) (st : Agg), (∀ r ∈ l,
      jsSort compareMessages (jsSort compareMessages r.messages)
        = jsSort compareMessages r.messages
      ∧ headerPosition (jsSort compareMessages r.messages) = headerPosition r.messages) →
      (l.map (fun r => { r with messages := jsSort compareMessages r.messages })).foldl
          (processResult env) st
        = l.foldl (processResult env) st := by
    intro l
    induction l with
    | nil => intro st _; rfl
    | cons r l ih =>
      intro st hl
      simp only [List.map_cons, List.foldl_cons]
      rw [processResult_sorted_messages env st r (hl r (List.mem_cons_self _ _)).1
        (hl r (List.mem_cons_self _ _)).2]
      exact ih _ (fun x hx => hl x (List.mem_cons_of_mem _ hx))
  unfold formatter aggregate resultsAfterCall
  rw [jsSort_map (fun r : LintResult => { r with messages := jsSort compareMessages r.messages })
    compareResults compareResults (fun a b => rfl), jsSort_compareResults_idem]
  rw [key _ _ (fun r hr => h r ((mem_jsSort compareResults results r).mp hr))]

/-- C3, amended: a second call on the result objects as the first call left them returns the
same string as the first call, provided that for every result the comparator's "less than" (a
negative result) is a strict weak order on its messages, so that every stable sort orders them
alike, and the in-place message sort left the header position (line:column of the first
severity-2 message, else of the first message) unchanged. -/
theorem second_call_eq (env : Env) (data : RuleData) (results : List LintResult)
    (h : ∀ r ∈ results,
      StrictWeakOn compareMessages r.messages
      ∧ headerPosition (jsSort compareMessages r.messages) = headerPosition r.messages) :
    formatter env (resultsAfterCall results) data = formatter env results data := by
  apply formatter_after_call_of_fixed
  intro r hr
  refine ⟨?_, (h r hr).2⟩
  apply jsSort_eq_self
  exact jsSort_sorted_of_strictWeakOn compareMessages r.messages (h r hr).1

/-- Witness for the amended C3: a file as ESLint reports it, an error on line 1 and then a
warning on line 3. -/
theorem second_call_eq_witness :
    formatter plainEnv
      (resultsAfterCall
        [{ filePath := "a.js"
           messages := [{ line := some 1, column := some 1, severity := Severity.num 2,
                          fatal := none, ruleId := RuleId.str "semi",
                          message := "Missing semicolon." },
                        { line := some 3, column := some 5, severity := Severity.num 1,
                          fatal := none, ruleId := RuleId.str "no-console",
                          message := "Unexpected console statement." }]
           errorCount := 1
           warningCount := 1 }]) noData
      = formatter plainEnv
        [{ filePath := "a.js"
           messages := [{ line := some 1, column := some 1, severity := Severity.num 2,
                          fatal := none, ruleId := RuleId.str "semi",
                          message := "Missing semicolon." },
                        { line := some 3, column := some 5, severity := Severity.num 1,
                          fatal := none, ruleId := RuleId.str "no-console",
                          message := "Unexpected console statement." }]
           errorCount := 1
           warningCount := 1 }] noData :=
  second_call_eq plainEnv noData _ (by decide)

/-! ## Lemmas on the summary -/

theorem summaryGet_cons (k' : String) (e : SummaryEntry) (rest : List (String × SummaryEntry))
    (k : String) :
    summaryGet ((k', e) :: rest) k = if k' = k then some e else summaryGet rest k := by
  unfold summaryGet
  by_cases h : k' = k
  · simp [List.find?_cons, h]
  · simp [List.find?_cons, h]

theorem summaryGet_bump_same (filePath k : String) (summary : List (String × SummaryEntry)) :
    summaryGet (summaryBump filePath k summary) k
      = some { nr := nrOf summary k + 1, files := pushUnique (filesOf summary k) filePath } := by
  induction summary with
  | nil => simp [summaryBump, summaryGet_cons, nrOf, filesOf, summaryGet, pushUnique]
  | cons p rest ih =>
    obtain ⟨k', e⟩ := p
    by_cases h : k' = k
    · simp [summaryBump, summaryGet_cons, nrOf, filesOf, h]
    · simp only [summaryBump, h, if_false, summaryGet_cons, nrOf, filesOf]
      simpa [nrOf, filesOf] using ih

theorem summaryGet_bump_other (filePath k k2 : String) (summary : List (String × SummaryEntry))
    (hne : k ≠ k2) :
    summaryGet (summaryBump filePath k summary) k2 = summaryGet summary k2 := by
  induction summary with
  | nil => simp [summaryBump, summaryGet_cons, hne, summaryGet]
  | cons p rest ih =>
    obtain ⟨k', e⟩ := p
    by_cases h : k' = k
    · subst h
      simp [summaryBump, summaryGet_cons, hne]
    · simp only [summaryBump, h, if_false, summaryGet_cons, ih]

theorem pushUnique_idem (files : List String) (f : String) :
    pushUnique (pushUnique files f) f = pushUnique files f := by
  unfold pushUnique
  by_cases h : f ∈ files
  · simp [h]
  · simp [h]

theorem processMessage_summary (env : Env) (filePath : String) (st : Agg) (m : LintMessage)
    (k : String) :
    summaryGet (processMessage env filePath st m).summary k
      = if summarizedUnder k m then
          some { nr := nrOf st.summary k + 1, files := pushUnique (filesOf st.summary k) filePath }
        else summaryGet st.summary k := by
  have herr : isError m = true ↔ classifiedError m := isError_iff m
  by_cases he : classifiedError m
  · simp [processMessage, herr.mpr he, summarizedUnder, he]
  · have hne : isError m = false := by
      rcases hb : isError m with _ | _
      · rfl
      · exact absurd (herr.mp hb) he
    by_cases hk : ruleKey m.ruleId = k
    · subst hk
      simp [processMessage, hne, summarizedUnder, he, summaryGet_bump_same]
    · simp [processMessage, hne, summarizedUnder, he, hk, summaryGet_bump_other _ _ _ _ hk]

/-- The effect of the messages of one file on the entry of the key `k`. -/
theorem foldl_processMessage_summary (env : Env) (filePath : String) (k : String)
    (ms : List LintMessage) (st : Agg) :
    summaryGet (ms.foldl (processMessage env filePath) st).summary k
      = if (ms.filter (summarizedUnder k)).length = 0 then summaryGet st.summary k
        else some { nr := nrOf st.summary k + (ms.filter (summarizedUnder k)).length
                    files := pushUnique (filesOf st.summary k) filePath } := by
  induction ms generalizing st with
  | nil => simp
  | cons m ms ih =>
    simp only [List.foldl_cons]
    rw [ih]
    have hm := processMessage_summary env filePath st m k
    by_cases hs : summarizedUnder k m = true
    · rw [hs] at hm
      simp only [if_true] at hm
      simp only [List.filter_cons, hs, if_true, List.length_cons, nrOf, filesOf, hm,
        pushUnique_idem]
      by_cases h0 : (ms.filter (summarizedUnder k)).length = 0
      · simp [h0]
      · simp [h0]; omega
    · have hs2 : summarizedUnder k m = false := by simpa using hs
      rw [hs2] at hm
      simp only [Bool.false_eq_true, if_false] at hm
      simp only [List.filter_cons, hs2, Bool.false_eq_true, if_false, nrOf, filesOf, hm]

theorem foldl_processMessage_summary_perm (env : Env) (filePath : String) (k : String)
    (ms ms2 : List LintMessage) (hperm : ms2.Perm ms) (st : Agg) :
    summaryGet (ms2.foldl (processMessage env filePath) st).summary k
      = if (ms.filter (summarizedUnder k)).length = 0 then summaryGet st.summary k
        else some { nr := nrOf st.summary k + (ms.filter (summarizedUnder k)).length
                    files := pushUnique (filesOf st.summary k) filePath } := by
  rw [foldl_processMessage_summary, (hperm.filter (summarizedUnder k)).length_eq]

theorem processResult_summary (env : Env) (k : String) (st : Agg) (r : LintResult) :
    summaryGet (processResult env st r).summary k
      = if (r.messages.filter (summarizedUnder k)).length = 0 then summaryGet st.summary k
        else some { nr := nrOf st.summary k + (r.messages.filter (summarizedUnder k)).length
                    files := pushUnique (filesOf st.summary k) r.filePath } := by
  unfold processResult
  split
  · rename_i h; simp [h]
  · rename_i first rest h
    rw [foldl_processMessage_summary_perm env r.filePath k r.messages _
      (jsSort_perm compareMessages r.messages)]
    rfl

theorem filter_summarized_eq_nil (k : String) (l : List LintResult)
    (h : (l.map (fun r => (r.messages.filter (summarizedUnder k)).length)).sum = 0) :
    l.filter (fun r => (r.messages.filter (summarizedUnder k)).length ≠ 0) = [] := by
  induction l with
  | nil => rfl
  | cons r l ih =>
    simp only [List.map_cons, List.sum_cons] at h
    have h1 : (r.messages.filter (summarizedUnder k)).length = 0 := by omega
    have h2 : (l.map (fun r => (r.messages.filter (summarizedUnder k)).length)).sum = 0 := by
      omega
    have hd : decide ((r.messages.filter (summarizedUnder k)).length ≠ 0) = false :=
      decide_eq_false (by omega)
    simp only [List.filter_cons, hd, Bool.false_eq_true, if_false]
    exact ih h2

/-- The effect of a run of results on the entry of the key `k`. -/
theorem foldl_processResult_summary (env : Env) (k : String) (l : List LintResult) (st : Agg) :
    summaryGet (l.foldl (processResult env) st).summary k
      = if (l.map (fun r => (r.messages.filter (summarizedUnder k)).length)).sum = 0 then
          summaryGet st.summary k
        else some
          { nr := nrOf st.summary k
              + (l.map (fun r => (r.messages.filter (summarizedUnder k)).length)).sum
            files := ((l.filter (fun r => (r.messages.filter (summarizedUnder k)).length ≠ 0)).map
              (fun r => r.filePath)).foldl pushUnique (filesOf st.summary k) } := by
  induction l generalizing st with
  | nil => simp
  | cons r l ih =>
    simp only [List.foldl_cons, List.map_cons, List.sum_cons]
    rw [ih]
    have hr := processResult_summary env k st r
    by_cases h0 : (r.messages.filter (summarizedUnder k)).length = 0
    · rw [if_pos h0] at hr
      simp only [nrOf, filesOf, hr, h0, zero_add, List.filter_cons, ne_eq, not_true_eq_false,
        decide_False, Bool.false_eq_true, if_false]
    · rw [if_neg h0] at hr
      have hd : decide ((r.messages.filter (summarizedUnder k)).length ≠ 0) = true := by
        simpa using h0
      by_cases hl : (l.map (fun r => (r.messages.filter (summarizedUnder k)).length)).sum = 0
      · have hnil := filter_summarized_eq_nil k l hl
        have hsum : ¬ ((r.messages.filter (summarizedUnder k)).length
            + (l.map (fun r => (r.messages.filter (summarizedUnder k)).length)).sum = 0) := by
          omega
        rw [if_pos hl, if_neg hsum, hr]
        simp only [List.filter_cons, hd, if_true, hnil, List.map_cons, List.map_nil,
          List.foldl_cons, List.foldl_nil, hl, Nat.add_zero]
      · have hsum : ¬ ((r.messages.filter (summarizedUnder k)).length
            + (l.map (fun r => (r.messages.filter (summarizedUnder k)).length)).sum = 0) := by
          omega
        rw [if_neg hl, if_neg hsum]
        simp only [nrOf, filesOf, hr, List.filter_cons, hd, if_true, List.map_cons,
          List.foldl_cons, Nat.add_assoc]

theorem foldl_pushUnique_eq_firstSeen (paths : List String) :
    paths.foldl pushUnique [] = firstSeen paths := by
  induction paths using List.reverseRecOn with
  | nil => rfl
  | append_singleton l a ih =>
    rw [List.foldl_append, List.foldl_cons, List.foldl_nil, ih]
    unfold firstSeen pushUnique
    rw [List.reverse_append, List.reverse_singleton, List.singleton_append]
    by_cases h : a ∈ l
    · have h1 : a ∈ (l.reverse.dedup).reverse := by simpa using h
      have h2 : a ∈ l.reverse := by simpa using h
      rw [if_pos h1, List.dedup_cons_of_mem h2]
    · have h1 : ¬ a ∈ (l.reverse.dedup).reverse := by simpa using h
      have h2 : ¬ a ∈ l.reverse := by simpa using h
      rw [if_neg h1, List.dedup_cons_of_not_mem h2, List.reverse_cons]

theorem sum_summarized (k : String) (l : List LintResult) :
    (l.map (fun r => (r.messages.filter (summarizedUnder k)).length)).sum
      = summaryCountSpec k l := by
  unfold summaryCountSpec allMessages
  induction l with
  | nil => rfl
  | cons r l ih =>
    simp only [List.map_cons, List.sum_cons, List.flatMap_cons, List.filter_append,
      List.length_append, ih]

/-- The entry of the key `k` after aggregation. -/
theorem aggregate_summaryGet (env : Env) (results : List LintResult) (k : String) :
    summaryGet (aggregate env results).summary k
      = if summaryCountSpec k results = 0 then none
        else some { nr := summaryCountSpec k results, files := summaryFilesSpec k results } := by
  unfold aggregate
  rw [foldl_processResult_summary, sum_summarized]
  have hperm : summaryCountSpec k (jsSort compareResults results) = summaryCountSpec k results := by
    rw [← sum_summarized, ← sum_summarized]
    exact ((jsSort_perm compareResults results).map _).sum_eq
  rw [hperm]
  have hfiles : filesOf Agg.init.summary k = [] := rfl
  have hnr : nrOf Agg.init.summary k = 0 := rfl
  have hget : summaryGet Agg.init.summary k = none := rfl
  rw [hfiles, hnr, hget, foldl_pushUnique_eq_firstSeen, Nat.zero_add]
  rfl

/-! ## Invariants of the aggregation -/

/-- A property that holds initially and is kept by the two kinds of step holds after
aggregation. -/
theorem aggregate_induction (env : Env) (P : Agg → Prop) (h0 : P Agg.init)
    (hopen : ∀ st r first, P st → P (openResult env st r first))
    (hmsg : ∀ st filePath m, P st → P (processMessage env filePath st m))
    (results : List LintResult) : P (aggregate env results) := by
  have hmsgs : ∀ (ms : List LintMessage) (filePath : String) (st : Agg), P st →
      P (ms.foldl (processMessage env filePath) st) := by
    intro ms filePath
    induction ms with
    | nil => intro st h; exact h
    | cons m ms ih => intro st h; exact ih _ (hmsg st filePath m h)
  have hres : ∀ (st : Agg) (r : LintResult), P st → P (processResult env st r) := by
    intro st r h
    unfold processResult
    split
    · exact h
    · exact hmsgs _ _ _ (hopen st r _ h)
  have hall : ∀ (l : List LintResult) (st : Agg), P st → P (l.foldl (processResult env) st) := by
    intro l
    induction l with
    | nil => intro st h; exact h
    | cons r l ih => intro st h; exact ih _ (hres st r h)
  exact hall _ _ h0

theorem summaryBump_keys (filePath k : String) (summary : List (String × SummaryEntry)) :
    (summaryBump filePath k summary).map Prod.fst = pushUnique (summary.map Prod.fst) k := by
  induction summary with
  | nil => simp [summaryBump, pushUnique]
  | cons p rest ih =>
    obtain ⟨k', e⟩ := p
    by_cases h : k' = k
    · subst h
      simp [summaryBump, pushUnique]
    · have hne : ¬ k = k' := fun hk => h hk.symm
      simp only [summaryBump, h, if_false, List.map_cons, ih, pushUnique, List.mem_cons, hne,
        false_or]
      split <;> rfl

theorem pushUnique_nodup (l : List String) (k : String) (h : l.Nodup) :
    (pushUnique l k).Nodup := by
  unfold pushUnique
  split
  · exact h
  · rename_i hk
    rw [List.nodup_append]
    refine ⟨h, List.nodup_singleton k, ?_⟩
    intro a ha hb
    rw [List.mem_singleton] at hb
    subst hb
    exact hk ha

theorem aggregate_keys_nodup (env : Env) (results : List LintResult) :
    ((aggregate env results).summary.map Prod.fst).Nodup := by
  refine aggregate_induction env (fun st => (st.summary.map Prod.fst).Nodup) ?_ ?_ ?_ results
  · exact List.nodup_nil
  · intro st r first h; exact h
  · intro st filePath m h
    show ((processMessage env filePath st m).summary.map Prod.fst).Nodup
    unfold processMessage
    simp only
    split
    · exact h
    · rw [summaryBump_keys]; exact pushUnique_nodup _ _ h

theorem summaryGet_of_mem (summary : List (String × SummaryEntry))
    (h : (summary.map Prod.fst).Nodup) (entry : String × SummaryEntry) (hmem : entry ∈ summary) :
    summaryGet summary entry.1 = some entry.2 := by
  induction summary with
  | nil => simp at hmem
  | cons p rest ih =>
    obtain ⟨k', e⟩ := p
    rw [List.map_cons, List.nodup_cons] at h
    rw [summaryGet_cons]
    rcases List.mem_cons.mp hmem with heq | hrest
    · subst heq; simp
    · have hne : ¬ k' = entry.1 := by
        intro hk
        apply h.1
        rw [hk]
        exact List.mem_map.mpr ⟨entry, hrest, rfl⟩
      rw [if_neg hne]
      exact ih h.2 hrest

theorem mem_firstSeen (l : List String) (f : String) : f ∈ firstSeen l ↔ f ∈ l := by
  simp [firstSeen]

theorem firstSeen_nodup (l : List String) : (firstSeen l).Nodup := by
  unfold firstSeen
  exact List.nodup_reverse.mpr (List.nodup_dedup _)

/-! ## The summary for ordinary rule ids -/

/-- For an input whose messages folded into the summary carry ordinary-string ruleIds (strings
that do not name a member of `Object.prototype`), where the association list agrees with the
object `summary`: a message is stored under the string `s` exactly when it is not
error-classified and its ruleId is `s`; the entry of `s` is present exactly when there is such
a message, its count is their number, its file list has no duplicates and holds exactly the
paths of the results with such a message in first-seen processing order; and the summary line,
when its padding count is not negative, prints that count and the length of that list. -/
theorem summary_of_ordinary_ruleIds (env : Env) (results : List LintResult)
    (hordinary : ∀ m ∈ allMessages results, ¬ classifiedError m →
      ∃ s, m.ruleId = RuleId.str s ∧ s ∉ objectPrototypeKeys) :
    (∀ m ∈ allMessages results, ∀ s,
        summarizedUnder s m = true ↔ ¬ classifiedError m ∧ m.ruleId = RuleId.str s)
    ∧ (∀ k, summaryGet (aggregate env results).summary k
        = if summaryCountSpec k results = 0 then none
          else some { nr := summaryCountSpec k results, files := summaryFilesSpec k results })
    ∧ (∀ k, (summaryFilesSpec k results).Nodup
        ∧ ∀ f, f ∈ summaryFilesSpec k results
            ↔ ∃ r ∈ results, r.filePath = f ∧ ∃ m ∈ r.messages, summarizedUnder k m = true)
    ∧ (∀ entry ∈ (aggregate env results).summary,
        summaryLine env (aggregate env results).maxRuleWidth entry
          = match repeatSpaces (((aggregate env results).maxRuleWidth : Int)
                - (jsLength entry.1 : Int)) with
            | Except.error e => Except.error e
            | Except.ok pad =>
              Except.ok ("  " ++ env.gray entry.1 ++ pad ++ "  "
                ++ env.yellow (toString (summaryCountSpec entry.1 results)) ++ " errors in "
                ++ env.yellow (toString (summaryFilesSpec entry.1 results).length)
                ++ " files" ++ "\n")) := by
  refine ⟨?_, aggregate_summaryGet env results, ?_, ?_⟩
  · intro m hm s
    unfold summarizedUnder
    rw [decide_eq_true_iff]
    constructor
    · rintro ⟨hc, hk⟩
      obtain ⟨t, ht, _⟩ := hordinary m hm hc
      rw [ht] at hk ⊢
      exact ⟨hc, by rw [show t = s from hk]⟩
    · rintro ⟨hc, hk⟩
      exact ⟨hc, by rw [hk]; rfl⟩
  · intro k
    refine ⟨firstSeen_nodup _, ?_⟩
    intro f
    unfold summaryFilesSpec
    rw [mem_firstSeen, List.mem_map]
    constructor
    · rintro ⟨r, hr, hf⟩
      rw [List.mem_filter] at hr
      refine ⟨r, (mem_jsSort compareResults results r).mp hr.1, hf, ?_⟩
      have hlen : (r.messages.filter (summarizedUnder k)).length ≠ 0 := by simpa using hr.2
      have hpos : 0 < (r.messages.filter (summarizedUnder k)).length := by omega
      obtain ⟨m, hm⟩ := List.exists_mem_of_length_pos hpos
      rw [List.mem_filter] at hm
      exact ⟨m, hm.1, hm.2⟩
    · rintro ⟨r, hr, hf, m, hm, hk⟩
      refine ⟨r, ?_, hf⟩
      rw [List.mem_filter]
      refine ⟨(mem_jsSort compareResults results r).mpr hr, ?_⟩
      have hmem : m ∈ r.messages.filter (summarizedUnder k) := List.mem_filter.mpr ⟨hm, hk⟩
      have hpos := List.length_pos_of_mem hmem
      exact decide_eq_true (by omega)
  · intro entry hmem
    have hget := summaryGet_of_mem _ (aggregate_keys_nodup env results) entry hmem
    rw [aggregate_summaryGet] at hget
    by_cases h0 : summaryCountSpec entry.1 results = 0
    · rw [if_pos h0] at hget; exact Option.noConfusion hget
    · rw [if_neg h0] at hget
      have hentry := (Option.some.inj hget).symm
      unfold summaryLine
      rw [hentry]

/-! ## Claim on the summary -/

/-- C9: for the result of an ignored file the warning is stored under the key "null" with count
1 and one file, and `maxRuleWidth` is 0, so the summary line of that entry is not printed: its
padding count is -4 and `repeat` throws. -/
theorem summary_line_throws (env : Env) :
    (aggregate env (ignoredFile 1)).summary
      = [("null", { nr := 1, files := ["ignored.js"] })]
    ∧ (aggregate env (ignoredFile 1)).maxRuleWidth = 0
    ∧ summaryLine env (aggregate env (ignoredFile 1)).maxRuleWidth
        ("null", { nr := 1, files := ["ignored.js"] })
      = Except.error JsError.rangeError :=
  ⟨rfl, rfl, rfl⟩

/-! ## Lemmas on the rows -/

theorem numTruthy_false (o : Option Nat) (h : numTruthy o = false) : o.getD 0 = 0 := by
  cases o with
  | none => rfl
  | some n => simpa [numTruthy] using h

theorem rowsMeasured_openResult (env : Env) (st : Agg) (r : LintResult) (first : LintMessage)
    (h : RowsMeasured env st) : RowsMeasured env (openResult env st r first) := by
  refine ⟨?_, h.2⟩
  intro x hx
  apply h.1 x
  simp only [openResult] at hx
  split at hx
  · rw [List.mem_append] at hx
    rcases hx with hx | hx
    · split at hx
      · rw [List.mem_append] at hx
        rcases hx with hx | hx
        · exact hx
        · simp at hx
      · exact hx
    · simp at hx
  · split at hx
    · rw [List.mem_append] at hx
      rcases hx with hx | hx
      · exact hx
      · simp at hx
    · exact hx

theorem rowsMeasured_processMessage (env : Env) (st : Agg) (filePath : String) (m : LintMessage)
    (h : RowsMeasured env st) : RowsMeasured env (processMessage env filePath st m) := by
  have hshow : (processMessage env filePath st m).showLineNumbers = false →
      st.showLineNumbers = false ∧ (messageItem env m).columnWidth = env.stringWidth "0" := by
    intro hs
    simp only [processMessage, Bool.or_eq_false_iff] at hs
    refine ⟨hs.1.1, ?_⟩
    simp only [messageItem, numTruthy_false _ hs.2]
    rfl
  constructor
  · intro x hx
    have hcases : LineItem.message x ∈ st.lines ∨ (isError m = true ∧ x = messageItem env m) := by
      simp only [processMessage] at hx
      split at hx
      · rename_i he
        rw [List.mem_append] at hx
        rcases hx with hx | hx
        · exact Or.inl hx
        · rw [List.mem_singleton] at hx
          exact Or.inr ⟨he, LineItem.message.inj hx⟩
      · exact Or.inl hx
    rcases hcases with hold | ⟨he, rfl⟩
    · obtain ⟨h1, h2, h3, h4, h5, h6, h7, h8⟩ := h.1 x hold
      refine ⟨h1, h2, h3, h4, ?_, ?_, ?_, ?_⟩
      · exact le_trans h5 (le_max_right _ _)
      · exact le_trans h6 (le_max_right _ _)
      · exact le_trans h7 (le_max_right _ _)
      · intro hs; exact h8 (hshow hs).1
    · refine ⟨?_, rfl, rfl, rfl, le_max_left _ _, le_max_left _ _, le_max_left _ _, ?_⟩
      · simp [messageItem, he]
      · intro hs; exact (hshow hs).2
  · intro hs
    obtain ⟨h1, h2⟩ := hshow hs
    have h3 := h.2 h1
    show max (messageItem env m).columnWidth st.maxColumnWidth ≤ env.stringWidth "0"
    rw [h2]
    exact max_le le_rfl h3

theorem aggregate_rowsMeasured (env : Env) (results : List LintResult) :
    RowsMeasured env (aggregate env results) := by
  refine aggregate_induction env (RowsMeasured env) ?_ ?_ ?_ results
  · exact ⟨fun x hx => by simp [Agg.init] at hx, fun _ => Nat.zero_le _⟩
  · exact fun st r first h => rowsMeasured_openResult env st r first h
  · exact fun st filePath m h => rowsMeasured_processMessage env st filePath m h

theorem repeatSpaces_sub (a b : Nat) (h : b ≤ a) :
    repeatSpaces ((a : Int) - (b : Int)) = Except.ok (spaces (a - b)) := by
  unfold repeatSpaces
  have h1 : ¬ ((a : Int) - (b : Int) < 0) := by omega
  have h2 : ((a : Int) - (b : Int)).toNat = a - b := by omega
  rw [if_neg h1, h2]

theorem width_sep (env : Env)
    (hspace : ∀ a b, env.stringWidth (a ++ " " ++ b) = env.stringWidth a + 1 + env.stringWidth b)
    (a b : String) :
    env.stringWidth (a ++ (" " ++ b)) = env.stringWidth a + 1 + env.stringWidth b := by
  rw [← String.append_assoc]
  exact hspace a b

theorem width_leading_space (env : Env) (hempty : env.stringWidth "" = 0)
    (hspace : ∀ a b, env.stringWidth (a ++ " " ++ b) = env.stringWidth a + 1 + env.stringWidth b)
    (b : String) : env.stringWidth (" " ++ b) = 1 + env.stringWidth b := by
  have h := hspace "" b
  have e : ("" : String) ++ " " ++ b = " " ++ b := rfl
  rw [e, hempty] at h
  omega

theorem width_leading_spaces (env : Env) (hempty : env.stringWidth "" = 0)
    (hspace : ∀ a b, env.stringWidth (a ++ " " ++ b) = env.stringWidth a + 1 + env.stringWidth b)
    (n : Nat) (b : String) : env.stringWidth (spaces n ++ b) = n + env.stringWidth b := by
  induction n with
  | zero =>
    have e : spaces 0 ++ b = b := rfl
    rw [e]; omega
  | succ n ih =>
    have e : spaces (n + 1) ++ b = " " ++ (spaces n ++ b) := rfl
    rw [e, width_leading_space env hempty hspace, ih]
    omega

theorem width_spaces (env : Env) (hempty : env.stringWidth "" = 0)
    (hspace : ∀ a b, env.stringWidth (a ++ " " ++ b) = env.stringWidth a + 1 + env.stringWidth b)
    (n : Nat) : env.stringWidth (spaces n) = n := by
  have h := width_leading_spaces env hempty hspace n ""
  have e : spaces n ++ "" = spaces n := by
    show String.mk (List.replicate n ' ' ++ []) = String.mk (List.replicate n ' ')
    rw [List.append_nil]
  rw [e, hempty] at h
  exact h

theorem mem_openResult_lines (env : Env) (st : Agg) (r : LintResult) (first : LintMessage)
    (x : MessageItem) (hx : LineItem.message x ∈ (openResult env st r first).lines) :
    LineItem.message x ∈ st.lines := by
  simp only [openResult] at hx
  split at hx
  · rw [List.mem_append] at hx
    rcases hx with hx | hx
    · split at hx
      · rw [List.mem_append] at hx
        rcases hx with hx | hx
        · exact hx
        · simp at hx
      · exact hx
    · simp at hx
  · split at hx
    · rw [List.mem_append] at hx
      rcases hx with hx | hx
      · exact hx
      · simp at hx
    · exact hx

theorem mem_processMessage_lines (env : Env) (st : Agg) (filePath : String) (m : LintMessage)
    (x : MessageItem) (hx : LineItem.message x ∈ (processMessage env filePath st m).lines) :
    LineItem.message x ∈ st.lines ∨ x = messageItem env m := by
  simp only [processMessage] at hx
  split at hx
  · rw [List.mem_append] at hx
    rcases hx with hx | hx
    · exact Or.inl hx
    · rw [List.mem_singleton] at hx
      exact Or.inr (LineItem.message.inj hx)
  · exact Or.inl hx

/-- The line and column texts of every message row are decimal numerals. -/
theorem aggregate_rows_decimal (env : Env) (results : List LintResult) (x : MessageItem)
    (hx : LineItem.message x ∈ (aggregate env results).lines) :
    ∃ l c : Nat, x.line = toString l ∧ x.column = toString c := by
  have hall := aggregate_induction env
    (fun st => ∀ y, LineItem.message y ∈ st.lines →
      ∃ l c : Nat, y.line = toString l ∧ y.column = toString c)
    (fun y hy => by simp [Agg.init] at hy)
    (fun st r first h y hy => h y (mem_openResult_lines env st r first y hy))
    (fun st filePath m h y hy => by
      rcases mem_processMessage_lines env st filePath m y hy with hold | rfl
      · exact h y hold
      · exact ⟨m.line.getD 0, m.column.getD 0, rfl, rfl⟩)
    results
  exact hall x hx

theorem renderItem_message (env : Env) (data : RuleData) (agg : Agg) (x : MessageItem)
    (hl : x.lineWidth ≤ agg.maxLineWidth) (hc : x.columnWidth ≤ agg.maxColumnWidth)
    (hm : x.messageWidth ≤ agg.maxMessageWidth) :
    renderItem env data agg (LineItem.message x)
      = Except.ok (lineText env data agg (LineItem.message x)) := by
  simp only [renderItem, rowFields, repeatSpaces_sub _ _ hl, repeatSpaces_sub _ _ hc,
    repeatSpaces_sub _ _ hm, lineText]
  unfold messagePrefix ruleGap severityLabel
  cases agg.showLineNumbers with
  | true =>
    simp only [if_true]
    show Except.ok ("" ++ "  " ++ _ ++ "  " ++ _ ++ "  " ++ _ ++ "  " ++ _) = _
    simp only [String.append_assoc]
  | false =>
    simp only [Bool.false_eq_true, if_false]
    show Except.ok ("" ++ "  " ++ _ ++ "  " ++ _ ++ "  " ++ _) = _
    simp only [String.append_assoc]

theorem renderItems_eq_map (env : Env) (data : RuleData) (agg : Agg) (l : List LineItem)
    (h : ∀ x, LineItem.message x ∈ l →
      x.lineWidth ≤ agg.maxLineWidth ∧ x.columnWidth ≤ agg.maxColumnWidth
        ∧ x.messageWidth ≤ agg.maxMessageWidth) :
    renderItems env data agg l = Except.ok (l.map (lineText env data agg)) := by
  induction l with
  | nil => rfl
  | cons item rest ih =>
    have hrest := ih (fun x hx => h x (List.mem_cons_of_mem _ hx))
    have hitem : renderItem env data agg item = Except.ok (lineText env data agg item) := by
      cases item with
      | separator => rfl
      | header filePath relativeFilePath firstLineCol => rfl
      | message x =>
        obtain ⟨hl, hc, hm⟩ := h x (List.mem_cons_self _ _)
        exact renderItem_message env data agg x hl hc hm
    simp only [renderItems, hitem, hrest, List.map_cons]

/-- The "Error details" block is the heading and the line texts joined by newlines. -/
theorem errorBlock_eq (env : Env) (data : RuleData) (results : List LintResult) :
    errorBlock env data (aggregate env results)
      = Except.ok
          (if (aggregate env results).errorCount > 0 then
            "  " ++ env.blue "Error details" ++ "\n"
              ++ "\n".intercalate
                  ((aggregate env results).lines.map (lineText env data (aggregate env results)))
              ++ "\n\n"
          else "") := by
  have hrows := renderItems_eq_map env data (aggregate env results) (aggregate env results).lines
    (fun x hx => by
      obtain ⟨_, _, _, _, hl, hc, hm, _⟩ := (aggregate_rowsMeasured env results).1 x hx
      exact ⟨hl, hc, hm⟩)
  unfold errorBlock
  rw [hrows]
  split <;> rfl

/-! ## Claim on the alignment of rows -/

/-- C10: when the display width of the empty string is 0, a space is a boundary of width 1 for
the display width, and the styling of the position text `line:column` adds no width, the
"Error details" block is its heading and the line texts joined by newlines, where the text of
every message row is prefix, message text, gap, rule-id text; the prefix has the same display
width `messageColumn` in every row and the text up to the rule-id has the same display width
`ruleColumn` in every row, with and without the line:column field. -/
theorem rows_aligned (env : Env) (data : RuleData) (results : List LintResult)
    (hempty : env.stringWidth "" = 0)
    (hspace : ∀ a b, env.stringWidth (a ++ " " ++ b) = env.stringWidth a + 1 + env.stringWidth b)
    (hposition : ∀ l c : Nat,
      env.stringWidth (env.dim (toString l ++ env.gray ":" ++ toString c))
        = env.stringWidth (toString l) + 1 + env.stringWidth (toString c)) :
    errorBlock env data (aggregate env results)
      = Except.ok
          (if (aggregate env results).errorCount > 0 then
            "  " ++ env.blue "Error details" ++ "\n"
              ++ "\n".intercalate
                  ((aggregate env results).lines.map (lineText env data (aggregate env results)))
              ++ "\n\n"
          else "")
    ∧ ∀ x, LineItem.message x ∈ (aggregate env results).lines →
        lineText env data (aggregate env results) (LineItem.message x)
          = messagePrefix env (aggregate env results) x ++ x.message
              ++ ruleGap (aggregate env results) x ++ ruleText env data x
        ∧ renderItem env data (aggregate env results) (LineItem.message x)
          = Except.ok (lineText env data (aggregate env results) (LineItem.message x))
        ∧ env.stringWidth (messagePrefix env (aggregate env results) x)
          = messageColumn env (aggregate env results)
        ∧ env.stringWidth (messagePrefix env (aggregate env results) x ++ x.message
              ++ ruleGap (aggregate env results) x)
          = ruleColumn env (aggregate env results) := by
  refine ⟨errorBlock_eq env data results, ?_⟩
  intro x hx
  obtain ⟨hsev, hlw, hcw, hmw, hl, hc, hm, hns⟩ := (aggregate_rowsMeasured env results).1 x hx
  obtain ⟨l, c, hline, hcolumn⟩ := aggregate_rows_decimal env results x hx
  have hmax0 := (aggregate_rowsMeasured env results).2
  refine ⟨rfl, renderItem_message env data _ x hl hc hm, ?_⟩
  generalize aggregate env results = agg at *
  have hlabel : severityLabel x = "error" := by
    unfold severityLabel
    rw [hsev]
    rfl
  have htwo : ("  " : String) = " " ++ " " := rfl
  have hpos := hposition l c
  rw [← hline, ← hcolumn, ← hlw, ← hcw, String.append_assoc] at hpos
  have hsep := width_sep env hspace
  have hlead := width_leading_space env hempty hspace
  have hleads := width_leading_spaces env hempty hspace
  have hsp := width_spaces env hempty hspace
  have hone : env.stringWidth " " = 1 := hsp 1
  unfold messagePrefix ruleGap ruleColumn messageColumn
  cases hshow : agg.showLineNumbers with
  | true =>
    simp only [if_true, hlabel, htwo, String.append_assoc, hsep, hlead, hleads, hsp, hempty,
      hone, hpos]
    constructor <;> omega
  | false =>
    have h0 := hns hshow
    have h1 := hmax0 hshow
    have hz : agg.maxColumnWidth - x.columnWidth = 0 := by omega
    simp only [Bool.false_eq_true, if_false, hlabel, htwo, String.append_assoc, hsep, hlead,
      hleads, hsp, hempty, hone, hz]
    constructor <;> omega

/-! ## An environment with styling -/

theorem scanWidth_space (a b : List Char) :
    ∀ st, scanWidth st (a ++ ' ' :: b) = scanWidth st a + 1 + scanWidth Scan.normal b := by
  induction a with
  | nil =>
    intro st
    cases st with
    | normal => simp [scanWidth, escapeChar]
    | escape => simp [scanWidth, escapeChar]
    | csi k =>
      simp [scanWidth, escapeChar, Char.isDigit, Char.isAlpha, Char.isUpper, Char.isLower]
      omega
  | cons c a ih =>
    intro st
    cases st with
    | normal =>
      simp only [List.cons_append, scanWidth, List.append_eq]
      split
      · exact ih _
      · rw [ih]; omega
    | escape =>
      simp only [List.cons_append, scanWidth, List.append_eq]
      split
      · exact ih _
      · split
        · exact ih _
        · rw [ih]; omega
    | csi k =>
      simp only [List.cons_append, scanWidth, List.append_eq]
      split
      · exact ih _
      · split
        · exact ih _
        · split
          · rw [ih]; omega
          · rw [ih]; omega

theorem scanWidth_plain (digits rest : List Char) (h : ∀ ch ∈ digits, ch ≠ escapeChar) :
    scanWidth Scan.normal (digits ++ rest) = digits.length + scanWidth Scan.normal rest := by
  induction digits with
  | nil => simp
  | cons c digits ih =>
    have hc : c ≠ escapeChar := h c (List.mem_cons_self _ _)
    simp only [List.cons_append, scanWidth, hc, if_false, List.length_cons, List.append_eq]
    rw [ih (fun x hx => h x (List.mem_cons_of_mem _ hx))]
    omega

theorem digitChar_ne_escape (k : Nat) (hk : k < 10) : Nat.digitChar k ≠ escapeChar := by
  interval_cases k <;> decide

theorem toDigitsCore_ne_escape (fuel n : Nat) (ds : List Char)
    (h : ∀ ch ∈ ds, ch ≠ escapeChar) :
    ∀ ch ∈ Nat.toDigitsCore 10 fuel n ds, ch ≠ escapeChar := by
  induction fuel generalizing n ds with
  | zero => simpa [Nat.toDigitsCore] using h
  | succ fuel ih =>
    have hd : Nat.digitChar (n % 10) ≠ escapeChar :=
      digitChar_ne_escape _ (Nat.mod_lt _ (by decide))
    have hcons : ∀ ch ∈ Nat.digitChar (n % 10) :: ds, ch ≠ escapeChar := by
      intro ch hch
      rcases List.mem_cons.mp hch with rfl | hch
      · exact hd
      · exact h ch hch
    unfold Nat.toDigitsCore
    simp only
    split
    · exact hcons
    · exact ih _ _ hcons

theorem toString_ne_escape (n : Nat) : ∀ ch ∈ (toString n).toList, ch ≠ escapeChar := by
  show ∀ ch ∈ (Nat.repr n).toList, ch ≠ escapeChar
  unfold Nat.repr Nat.toDigits
  simpa [List.asString] using toDigitsCore_ne_escape (n + 1) n [] (by simp)

theorem ansiWidth_space (a b : String) :
    ansiWidth (a ++ " " ++ b) = ansiWidth a + 1 + ansiWidth b := by
  have e : (a ++ " " ++ b).toList = a.toList ++ ' ' :: b.toList := by
    simp [String.toList, String.data_append]
  unfold ansiWidth
  rw [e]
  exact scanWidth_space _ _ _

theorem ansiWidth_position (l c : Nat) :
    ansiWidth (ansiStyle "2" "22" (toString l ++ ansiStyle "90" "39" ":" ++ toString c))
      = ansiWidth (toString l) + 1 + ansiWidth (toString c) := by
  have e : (ansiStyle "2" "22" (toString l ++ ansiStyle "90" "39" ":" ++ toString c)).toList
      = escapeChar :: '[' :: '2' :: 'm' :: ((toString l).toList
          ++ (escapeChar :: '[' :: '9' :: '0' :: 'm' :: ':' :: escapeChar :: '[' :: '3' :: '9'
            :: 'm' :: ((toString c).toList ++ [escapeChar, '[', '2', '2', 'm']))) := by
    simp [ansiStyle, String.toList, String.data_append, String.singleton]
  have hl := toString_ne_escape l
  have hc := toString_ne_escape c
  have h1 : ∀ rest, scanWidth Scan.normal (escapeChar :: '[' :: '2' :: 'm' :: rest)
      = scanWidth Scan.normal rest := fun _ => rfl
  have h2 : ∀ rest, scanWidth Scan.normal
      (escapeChar :: '[' :: '9' :: '0' :: 'm' :: ':' :: escapeChar :: '[' :: '3' :: '9'
        :: 'm' :: rest) = 1 + scanWidth Scan.normal rest := fun _ => rfl
  have h3 : scanWidth Scan.normal [escapeChar, '[', '2', '2', 'm'] = 0 := rfl
  have hwl : ansiWidth (toString l) = (toString l).toList.length := by
    have := scanWidth_plain (toString l).toList [] hl
    simpa [ansiWidth, scanWidth] using this
  have hwc : ansiWidth (toString c) = (toString c).toList.length := by
    have := scanWidth_plain (toString c).toList [] hc
    simpa [ansiWidth, scanWidth] using this
  rw [hwl, hwc]
  unfold ansiWidth
  rw [e, h1, scanWidth_plain _ _ hl, h2, scanWidth_plain _ _ hc, h3]
  omega

/-- Witness for C10: with colours enabled and a width that ignores the styling sequences, the
rows of two errors, on line 1 and on line 12, start their message text at column 17. -/
theorem rows_aligned_witness :
    ansiEnv.stringWidth (ansiEnv.dim "12") = 2
    ∧ messageColumn ansiEnv (aggregate ansiEnv alignmentInput) = 17
    ∧ LineItem.message (messageItem ansiEnv alignmentFirst)
        ∈ (aggregate ansiEnv alignmentInput).lines
    ∧ ansiEnv.stringWidth (messagePrefix ansiEnv (aggregate ansiEnv alignmentInput)
        (messageItem ansiEnv alignmentFirst))
      = messageColumn ansiEnv (aggregate ansiEnv alignmentInput) :=
  ⟨by decide, by decide, by decide,
   ((rows_aligned ansiEnv noData alignmentInput rfl ansiWidth_space ansiWidth_position).2
      (messageItem ansiEnv alignmentFirst) (by decide)).2.2.1⟩

/-! ## Claims on the comparators -/

theorem compareResults_eq_compareKeys (a b : LintResult) :
    compareResults a b = compareKeys (resultKey a) (resultKey b) := rfl

theorem compareKeys_antisymm (a b : Int × Int) (hab : compareKeys a b ≤ 0)
    (hba : compareKeys b a ≤ 0) : a = b := by
  obtain ⟨a1, a2⟩ := a
  obtain ⟨b1, b2⟩ := b
  unfold compareKeys at hab hba
  simp only at hab hba
  have h : a1 = b1 ∧ a2 = b2 := by
    split_ifs at hab hba <;> omega
  rw [h.1, h.2]

theorem compareResults_sign (a b : LintResult) :
    Int.sign (compareResults a b) = - Int.sign (compareResults b a) := by
  have hneg : ∀ x y : Int, Int.sign (x - y) = - Int.sign (y - x) := by
    intro x y
    rw [← Int.sign_neg]
    congr 1
    omega
  unfold compareResults
  split_ifs <;> first | exact hneg _ _ | rfl | (exfalso; omega)

theorem compareResults_eq_zero_iff (a b : LintResult) :
    compareResults a b = 0 ↔ a.errorCount = b.errorCount ∧ a.warningCount = b.warningCount := by
  unfold compareResults
  split_ifs with h1 h2 h3
  · constructor
    · intro h; exact ⟨h1, by omega⟩
    · intro h; omega
  · constructor
    · intro h; exact False.elim h
    · intro h; exact absurd h.1 h1
  · constructor
    · intro h; first | exact False.elim h | omega
    · intro h; exact absurd h.1 h1
  · constructor
    · intro h; omega
    · intro h; exact absurd h.1 h1

/-- C20: the file comparator is a consistent ordering: the signs of `cmp(a,b)` and `cmp(b,a)`
are opposite, `cmp(a,b)` is 0 exactly when both counts are equal, and it is transitive; so
every permutation of the input that is sorted by it shows the same sequence of count pairs as
the processed order, whatever the sort algorithm. -/
theorem compareResults_consistent (results : List LintResult) :
    (∀ a b, Int.sign (compareResults a b) = - Int.sign (compareResults b a))
    ∧ (∀ a b, compareResults a b = 0
        ↔ a.errorCount = b.errorCount ∧ a.warningCount = b.warningCount)
    ∧ (∀ a b c, compareResults a b ≤ 0 → compareResults b c ≤ 0 → compareResults a c ≤ 0)
    ∧ (∀ l : List LintResult, l.Perm results →
        l.Pairwise (fun a b => compareResults a b ≤ 0) →
        l.map resultKey = (jsSort compareResults results).map resultKey) := by
  refine ⟨compareResults_sign, compareResults_eq_zero_iff, compareResults_trans, ?_⟩
  intro l hperm hsorted
  haveI : IsAntisymm (Int × Int) (fun x y => compareKeys x y ≤ 0) :=
    ⟨fun x y hxy hyx => compareKeys_antisymm x y hxy hyx⟩
  have h1 : (l.map resultKey).Pairwise (fun x y => compareKeys x y ≤ 0) :=
    List.pairwise_map.mpr hsorted
  have h2 : ((jsSort compareResults results).map resultKey).Pairwise
      (fun x y => compareKeys x y ≤ 0) :=
    List.pairwise_map.mpr
      (jsSort_pairwise compareResults compareResults_trans compareResults_flip results)
  exact List.eq_of_perm_of_sorted
    ((hperm.trans (jsSort_perm compareResults results).symm).map resultKey) h1 h2

/-- C16: a message whose severity is the string "error" is error-classified, a severity-1
message is not, yet the comparator returns -1 for the pair in both orders: the error-classified
message is not ordered after the other. -/
theorem compareMessages_string_error :
    isError { line := some 1, column := some 1, severity := Severity.str "error", fatal := none,
              ruleId := RuleId.str "no-undef", message := "x is not defined" } = true
    ∧ isError { line := some 2, column := some 1, severity := Severity.num 1, fatal := none,
                ruleId := RuleId.str "no-console", message := "Unexpected console statement." }
        = false
    ∧ compareMessages
        { line := some 1, column := some 1, severity := Severity.str "error", fatal := none,
          ruleId := RuleId.str "no-undef", message := "x is not defined" }
        { line := some 2, column := some 1, severity := Severity.num 1, fatal := none,
          ruleId := RuleId.str "no-console", message := "Unexpected console statement." } = -1
    ∧ compareMessages
        { line := some 2, column := some 1, severity := Severity.num 1, fatal := none,
          ruleId := RuleId.str "no-console", message := "Unexpected console statement." }
        { line := some 1, column := some 1, severity := Severity.str "error", fatal := none,
          ruleId := RuleId.str "no-undef", message := "x is not defined" } = -1 := by
  decide

/-! ## Lemmas on the line items -/

theorem foldl_processMessage_lines (env : Env) (filePath : String) (ms : List LintMessage)
    (st : Agg) :
    (ms.foldl (processMessage env filePath) st).lines
      = st.lines ++ (ms.filter isError).map (fun m => LineItem.message (messageItem env m)) := by
  induction ms generalizing st with
  | nil => simp
  | cons m ms ih =>
    simp only [List.foldl_cons]
    rw [ih]
    cases he : isError m with
    | true => simp [processMessage, he, List.filter_cons]
    | false => simp [processMessage, he, List.filter_cons]

theorem processResult_lines (env : Env) (st : Agg) (r : LintResult) (hr : r.messages ≠ []) :
    (processResult env st r).lines
      = st.lines ++ (if st.lines.length ≠ 0 then [LineItem.separator] else [])
          ++ resultItems env r := by
  obtain ⟨filePath, ms, ec, wc⟩ := r
  cases ms with
  | nil => exact absurd rfl hr
  | cons first rest =>
    simp only [processResult, foldl_processMessage_lines, openResult, resultItems,
      headerPosition]
    by_cases h0 : st.lines.length ≠ 0
    · by_cases he : trueErrorCount (first :: rest) > 0
      · rw [if_pos h0, if_pos h0, if_pos he, if_pos he]
        simp only [List.append_assoc]
      · rw [if_pos h0, if_pos h0, if_neg he, if_neg he]
        simp only [List.append_assoc, List.nil_append]
    · by_cases he : trueErrorCount (first :: rest) > 0
      · rw [if_neg h0, if_neg h0, if_pos he, if_pos he]
        simp only [List.append_assoc, List.nil_append]
      · rw [if_neg h0, if_neg h0, if_neg he, if_neg he]
        simp only [List.append_assoc, List.nil_append]

theorem resultItems_eq_nil_iff (env : Env) (r : LintResult) :
    resultItems env r = [] ↔ trueErrorCount r.messages = 0 := by
  have hlen : ((jsSort compareMessages r.messages).filter isError).length
      = trueErrorCount r.messages := trueErrorCount_jsSort r.messages
  unfold resultItems
  constructor
  · intro h
    by_cases he : trueErrorCount r.messages > 0
    · simp [he] at h
    · omega
  · intro h
    have he : ¬ trueErrorCount r.messages > 0 := by omega
    rw [h] at hlen
    have hnil := List.length_eq_zero.mp hlen
    simp [he, hnil]

theorem separator_not_mem_resultItems (env : Env) (r : LintResult) :
    LineItem.separator ∉ resultItems env r := by
  unfold resultItems
  intro h
  rw [List.mem_append] at h
  rcases h with h | h
  · split at h
    · simp at h
    · simp at h
  · rw [List.mem_map] at h
    obtain ⟨m, _, hm⟩ := h
    exact LineItem.noConfusion hm

theorem processResult_lines_eq_nil (env : Env) (st : Agg) (r : LintResult) :
    (processResult env st r).lines = [] ↔ st.lines = [] ∧ trueErrorCount r.messages = 0 := by
  by_cases hr : r.messages = []
  · rw [processResult_of_nil env st r hr]
    simp [hr, trueErrorCount]
  · rw [processResult_lines env st r hr]
    constructor
    · intro h
      rw [List.append_eq_nil, List.append_eq_nil] at h
      exact ⟨h.1.1, (resultItems_eq_nil_iff env r).mp h.2⟩
    · rintro ⟨h1, h2⟩
      rw [h1, (resultItems_eq_nil_iff env r).mpr h2]
      rfl

theorem foldl_processResult_lines_eq_nil (env : Env) (l : List LintResult) (st : Agg) :
    (l.foldl (processResult env) st).lines = []
      ↔ st.lines = [] ∧ ∀ r ∈ l, trueErrorCount r.messages = 0 := by
  induction l generalizing st with
  | nil => simp
  | cons r l ih =>
    simp only [List.foldl_cons]
    rw [ih, processResult_lines_eq_nil]
    constructor
    · rintro ⟨⟨h1, h2⟩, h3⟩
      refine ⟨h1, ?_⟩
      intro x hx
      rcases List.mem_cons.mp hx with rfl | hx
      · exact h2
      · exact h3 x hx
    · rintro ⟨h1, h2⟩
      exact ⟨⟨h1, h2 r (List.mem_cons_self _ _)⟩, fun x hx => h2 x (List.mem_cons_of_mem _ hx)⟩

theorem foldl_processResult_lines_prefix (env : Env) (l : List LintResult) (st : Agg) :
    ∃ tail, (l.foldl (processResult env) st).lines = st.lines ++ tail := by
  induction l generalizing st with
  | nil => exact ⟨[], by simp⟩
  | cons r l ih =>
    simp only [List.foldl_cons]
    by_cases hr : r.messages = []
    · rw [processResult_of_nil env st r hr]
      exact ih st
    · obtain ⟨tail, ht⟩ := ih (processResult env st r)
      rw [processResult_lines env st r hr] at ht
      exact ⟨_, by rw [ht, List.append_assoc, List.append_assoc]⟩

theorem aggregate_head_not_separator (env : Env) (results : List LintResult) :
    (aggregate env results).lines.head? ≠ some LineItem.separator := by
  refine aggregate_induction env (fun st => st.lines.head? ≠ some LineItem.separator)
    ?_ ?_ ?_ results
  · simp [Agg.init]
  · intro st r first h
    show (openResult env st r first).lines.head? ≠ some LineItem.separator
    cases hl : st.lines with
    | nil =>
      simp only [openResult, hl, List.length_nil, ne_eq, not_true_eq_false, if_false]
      split <;> simp
    | cons a rest =>
      rw [hl] at h
      simp only [openResult, hl, List.length_cons, ne_eq, Nat.add_one_ne_zero,
        not_false_eq_true, if_true]
      split <;> simpa using h
  · intro st filePath m h
    show (processMessage env filePath st m).lines.head? ≠ some LineItem.separator
    cases hl : st.lines with
    | nil =>
      simp only [processMessage, hl]
      split <;> simp
    | cons a rest =>
      rw [hl] at h
      simp only [processMessage, hl]
      split <;> simpa using h

/-! ## Claims on the line items -/

/-- C11, as stated, fails: a warning-only file is processed first and the file with an error
second, yet no separator precedes the items of the second file. -/
theorem no_separator_after_warning_only_file :
    jsSort compareResults warningThenError = warningThenError
    ∧ (aggregate plainEnv warningThenError).lines
      = [LineItem.header "b.js" "b.js" "2:3",
         LineItem.message
          { severity := "error", line := "2", lineWidth := 1, column := "3", columnWidth := 1,
            message := "Missing semicolon.", messageWidth := 18, ruleId := "semi" }] := by
  decide

/-- C11, amended: when the processing order is `pre`, then the retained result `r`, then
`post`, the line items are those produced by `pre`, then a separator exactly when some result
of `pre` has an error-classified message (the sequence is non-empty at that point), then the
header and rows of `r`, then the rest; the header and rows of a result contain no separator,
and the sequence never begins with a separator. -/
theorem separator_placement (env : Env) (results pre post : List LintResult) (r : LintResult)
    (hsplit : jsSort compareResults results = pre ++ r :: post) (hr : r.messages ≠ []) :
    (∃ tail, (aggregate env results).lines
      = (pre.foldl (processResult env) Agg.init).lines
        ++ (if pre.any (fun p => decide (0 < trueErrorCount p.messages)) then
              [LineItem.separator] else [])
        ++ resultItems env r ++ tail)
    ∧ LineItem.separator ∉ resultItems env r
    ∧ (aggregate env results).lines.head? ≠ some LineItem.separator := by
  refine ⟨?_, separator_not_mem_resultItems env r, aggregate_head_not_separator env results⟩
  unfold aggregate
  rw [hsplit, List.foldl_append, List.foldl_cons]
  obtain ⟨tail, ht⟩ := foldl_processResult_lines_prefix env post
    (processResult env (pre.foldl (processResult env) Agg.init) r)
  refine ⟨tail, ?_⟩
  rw [ht, processResult_lines env _ r hr]
  have hiff : ((pre.foldl (processResult env) Agg.init).lines.length ≠ 0)
      ↔ pre.any (fun p => decide (0 < trueErrorCount p.messages)) = true := by
    rw [List.any_eq_true]
    have hnil := foldl_processResult_lines_eq_nil env pre Agg.init
    constructor
    · intro hlen
      by_contra hno
      apply hlen
      rw [List.length_eq_zero, hnil]
      refine ⟨rfl, ?_⟩
      intro p hp
      by_contra hpos
      exact hno ⟨p, hp, decide_eq_true (by omega)⟩
    · rintro ⟨p, hp, hpos⟩ hlen
      rw [List.length_eq_zero, hnil] at hlen
      have := hlen.2 p hp
      have hpos2 : 0 < trueErrorCount p.messages := of_decide_eq_true hpos
      omega
  by_cases hany : pre.any (fun p => decide (0 < trueErrorCount p.messages)) = true
  · rw [if_pos (hiff.mpr hany), if_pos hany]
  · rw [if_neg (fun h => hany (hiff.mp h)), if_neg hany]

/-- Witness for the amended C11: of two files with one error each, the second is preceded by a
separator. -/
theorem separator_placement_witness :
    ∃ tail, (aggregate plainEnv twoErrorFiles).lines
      = [LineItem.header "a.js" "a.js" "1:1",
         LineItem.message
          { severity := "error", line := "1", lineWidth := 1, column := "1", columnWidth := 1,
            message := "x is not defined", messageWidth := 16, ruleId := "no-undef" },
         LineItem.separator,
         LineItem.header "b.js" "b.js" "2:3",
         LineItem.message
          { severity := "error", line := "2", lineWidth := 1, column := "3", columnWidth := 1,
            message := "Missing semicolon.", messageWidth := 18, ruleId := "semi" }] ++ tail :=
  (separator_placement plainEnv twoErrorFiles
    [{ filePath := "a.js"
       messages := [{ line := some 1, column := some 1, severity := Severity.num 2,
                      fatal := none, ruleId := RuleId.str "no-undef",
                      message := "x is not defined" }]
       errorCount := 1
       warningCount := 0 }]
    []
    { filePath := "b.js"
      messages := [{ line := some 2, column := some 3, severity := Severity.num 2, fatal := none,
                     ruleId := RuleId.str "semi", message := "Missing semicolon." }]
      errorCount := 1
      warningCount := 0 }
    (by decide) (by decide)).1

/-- C12: for a file whose only error-classified message has the severity "error" and stands
second, the header is emitted but its position is 1:1, that of the first message, not 5:2,
that of the first message whose severity is error-level. -/
theorem header_position_ignores_string_severity :
    (aggregate plainEnv stringSeverityInput).lines
      = [LineItem.header "a.js" "a.js" "1:1",
         LineItem.message
          { severity := "error", line := "5", lineWidth := 1, column := "2", columnWidth := 1,
            message := "x is not defined", messageWidth := 16, ruleId := "no-undef" }] := by
  decide

/-! ## Lemmas on the width maxima -/

theorem widest_append (a b : List Nat) : widest (a ++ b) = max (widest a) (widest b) := by
  induction a with
  | nil => simp [widest]
  | cons x a ih =>
    simp only [widest, List.cons_append, List.foldr_cons] at ih ⊢
    rw [ih]
    omega

theorem widest_perm (a b : List Nat) (h : a.Perm b) : widest a = widest b := by
  induction h with
  | nil => rfl
  | cons x _ ih =>
    simp only [widest, List.foldr_cons] at ih ⊢
    rw [ih]
  | swap x y l =>
    simp only [widest, List.foldr_cons]
    omega
  | trans _ _ ih1 ih2 => exact ih1.trans ih2

/-- A running maximum that each message raises to at least its own measure, and that nothing
else changes, ends as the largest measure over all messages. -/
theorem aggregate_max (env : Env) (g : Agg → Nat) (f : LintMessage → Nat)
    (h0 : g Agg.init = 0)
    (hmsg : ∀ st filePath m, g (processMessage env filePath st m) = max (f m) (g st))
    (hopen : ∀ st r first, g (openResult env st r first) = g st)
    (results : List LintResult) :
    g (aggregate env results) = widest ((allMessages results).map f) := by
  have hms : ∀ (ms : List LintMessage) (filePath : String) (st : Agg),
      g (ms.foldl (processMessage env filePath) st) = max (widest (ms.map f)) (g st) := by
    intro ms filePath
    induction ms with
    | nil => intro st; simp [widest]
    | cons m ms ih =>
      intro st
      simp only [List.foldl_cons, List.map_cons]
      rw [ih, hmsg]
      simp only [widest, List.foldr_cons]
      omega
  have hres : ∀ (st : Agg) (r : LintResult),
      g (processResult env st r) = max (widest (r.messages.map f)) (g st) := by
    intro st r
    unfold processResult
    split
    · rename_i h; simp [h, widest]
    · rw [hms, hopen,
        widest_perm _ _ ((jsSort_perm compareMessages r.messages).map f)]
  have hall : ∀ (l : List LintResult) (st : Agg),
      g (l.foldl (processResult env) st) = max (widest ((allMessages l).map f)) (g st) := by
    intro l
    induction l with
    | nil => intro st; simp [allMessages, widest]
    | cons r l ih =>
      intro st
      simp only [List.foldl_cons]
      rw [ih, hres]
      simp only [allMessages, List.flatMap_cons, List.map_append, widest_append]
      omega
  unfold aggregate
  rw [hall, h0]
  have hperm : ((allMessages (jsSort compareResults results)).map f).Perm
      ((allMessages results).map f) :=
    (List.Perm.flatMap_right (fun r : LintResult => r.messages)
      (jsSort_perm compareResults results)).map f
  rw [widest_perm _ _ hperm]
  omega

/-! ## Claim on the width maxima -/

/-- C17: after aggregation each of the four maxima is the largest corresponding display width
over every message of every result (0 when there is none), whatever the classification of the
message, and no step of the processing lowers a running maximum. -/
theorem maxima_correct (env : Env) (results : List LintResult) :
    (aggregate env results).maxLineWidth
      = widest ((allMessages results).map
          (fun m => env.stringWidth (toString (m.line.getD 0))))
    ∧ (aggregate env results).maxColumnWidth
      = widest ((allMessages results).map
          (fun m => env.stringWidth (toString (m.column.getD 0))))
    ∧ (aggregate env results).maxMessageWidth
      = widest ((allMessages results).map (fun m => env.stringWidth (stylize env m.message)))
    ∧ (aggregate env results).maxRuleWidth
      = widest ((allMessages results).map (fun m => ruleWidth env m.ruleId))
    ∧ (∀ st filePath m,
        st.maxLineWidth ≤ (processMessage env filePath st m).maxLineWidth
        ∧ st.maxColumnWidth ≤ (processMessage env filePath st m).maxColumnWidth
        ∧ st.maxMessageWidth ≤ (processMessage env filePath st m).maxMessageWidth
        ∧ st.maxRuleWidth ≤ (processMessage env filePath st m).maxRuleWidth)
    ∧ (∀ st r,
        st.maxLineWidth ≤ (processResult env st r).maxLineWidth
        ∧ st.maxColumnWidth ≤ (processResult env st r).maxColumnWidth
        ∧ st.maxMessageWidth ≤ (processResult env st r).maxMessageWidth
        ∧ st.maxRuleWidth ≤ (processResult env st r).maxRuleWidth) := by
  have hstep : ∀ (st : Agg) (filePath : String) (m : LintMessage),
      st.maxLineWidth ≤ (processMessage env filePath st m).maxLineWidth
      ∧ st.maxColumnWidth ≤ (processMessage env filePath st m).maxColumnWidth
      ∧ st.maxMessageWidth ≤ (processMessage env filePath st m).maxMessageWidth
      ∧ st.maxRuleWidth ≤ (processMessage env filePath st m).maxRuleWidth :=
    fun st filePath m =>
      ⟨le_max_right _ _, le_max_right _ _, le_max_right _ _, le_max_right _ _⟩
  have hfold : ∀ (ms : List LintMessage) (filePath : String) (st : Agg),
      st.maxLineWidth ≤ (ms.foldl (processMessage env filePath) st).maxLineWidth
      ∧ st.maxColumnWidth ≤ (ms.foldl (processMessage env filePath) st).maxColumnWidth
      ∧ st.maxMessageWidth ≤ (ms.foldl (processMessage env filePath) st).maxMessageWidth
      ∧ st.maxRuleWidth ≤ (ms.foldl (processMessage env filePath) st).maxRuleWidth := by
    intro ms filePath
    induction ms with
    | nil => intro st; exact ⟨le_rfl, le_rfl, le_rfl, le_rfl⟩
    | cons m ms ih =>
      intro st
      simp only [List.foldl_cons]
      obtain ⟨a1, a2, a3, a4⟩ := hstep st filePath m
      obtain ⟨b1, b2, b3, b4⟩ := ih (processMessage env filePath st m)
      exact ⟨le_trans a1 b1, le_trans a2 b2, le_trans a3 b3, le_trans a4 b4⟩
  refine ⟨?_, ?_, ?_, ?_, hstep, ?_⟩
  · exact aggregate_max env (fun st => st.maxLineWidth) _ rfl (fun _ _ _ => rfl)
      (fun _ _ _ => rfl) results
  · exact aggregate_max env (fun st => st.maxColumnWidth) _ rfl (fun _ _ _ => rfl)
      (fun _ _ _ => rfl) results
  · exact aggregate_max env (fun st => st.maxMessageWidth) _ rfl (fun _ _ _ => rfl)
      (fun _ _ _ => rfl) results
  · exact aggregate_max env (fun st => st.maxRuleWidth) _ rfl (fun _ _ _ => rfl)
      (fun _ _ _ => rfl) results
  · intro st r
    unfold processResult
    split
    · exact ⟨le_rfl, le_rfl, le_rfl, le_rfl⟩
    · exact hfold _ _ (openResult env st r _)

/-! ## Lemmas on showLineNumbers -/

theorem numTruthy_iff (o : Option Nat) : numTruthy o = true ↔ ∃ n, o = some n ∧ n ≠ 0 := by
  cases o with
  | none => simp [numTruthy]
  | some n => simp [numTruthy]

theorem aggregate_showLineNumbers (env : Env) (results : List LintResult) :
    (aggregate env results).showLineNumbers
      = (allMessages results).any (fun m => numTruthy m.line || numTruthy m.column) := by
  have hms : ∀ (ms : List LintMessage) (filePath : String) (st : Agg),
      (ms.foldl (processMessage env filePath) st).showLineNumbers
        = (st.showLineNumbers || ms.any (fun m => numTruthy m.line || numTruthy m.column)) := by
    intro ms filePath
    induction ms with
    | nil => intro st; simp
    | cons m ms ih =>
      intro st
      simp only [List.foldl_cons, List.any_cons]
      rw [ih]
      simp only [processMessage, Bool.or_assoc]
  have hany : ∀ (a b : List LintMessage), a.Perm b →
      a.any (fun m => numTruthy m.line || numTruthy m.column)
        = b.any (fun m => numTruthy m.line || numTruthy m.column) := by
    intro a b h
    rw [Bool.eq_iff_iff, List.any_eq_true, List.any_eq_true]
    exact ⟨fun ⟨m, hm, hp⟩ => ⟨m, h.mem_iff.mp hm, hp⟩,
      fun ⟨m, hm, hp⟩ => ⟨m, h.mem_iff.mpr hm, hp⟩⟩
  have hres : ∀ (st : Agg) (r : LintResult),
      (processResult env st r).showLineNumbers
        = (st.showLineNumbers
            || r.messages.any (fun m => numTruthy m.line || numTruthy m.column)) := by
    intro st r
    unfold processResult
    split
    · rename_i h; simp [h]
    · rw [hms, hany _ _ (jsSort_perm compareMessages r.messages)]
      rfl
  have hall : ∀ (l : List LintResult) (st : Agg),
      (l.foldl (processResult env) st).showLineNumbers
        = (st.showLineNumbers
            || (allMessages l).any (fun m => numTruthy m.line || numTruthy m.column)) := by
    intro l
    induction l with
    | nil => intro st; simp [allMessages]
    | cons r l ih =>
      intro st
      simp only [List.foldl_cons]
      rw [ih, hres]
      simp only [allMessages, List.flatMap_cons, List.any_append, Bool.or_assoc]
  unfold aggregate
  rw [hall]
  have hperm : (allMessages (jsSort compareResults results)).Perm (allMessages results) :=
    List.Perm.flatMap_right (fun r : LintResult => r.messages)
      (jsSort_perm compareResults results)
  rw [hany _ _ hperm]
  rfl

/-! ## Claim on showLineNumbers -/

/-- C18: `showLineNumbers` is truthy exactly when some message of some result has a nonzero
line or a nonzero column; when it is falsy every header is rendered without the position
suffix and every message row is rendered as four joined fields, the line:column field being
left out. -/
theorem showLineNumbers_correct (env : Env) (data : RuleData) (results : List LintResult) :
    ((aggregate env results).showLineNumbers = true
      ↔ ∃ m ∈ allMessages results,
          (∃ n, m.line = some n ∧ n ≠ 0) ∨ (∃ n, m.column = some n ∧ n ≠ 0))
    ∧ ((aggregate env results).showLineNumbers = false →
        (∀ filePath relativeFilePath firstLineCol,
          renderItem env data (aggregate env results)
              (LineItem.header filePath relativeFilePath firstLineCol)
            = Except.ok ("  " ++ env.underline relativeFilePath ++ ""))
        ∧ (∀ x, LineItem.message x ∈ (aggregate env results).lines →
            rowFields env data (aggregate env results) x
              = Except.ok
                  [ "", "error",
                    spaces ((aggregate env results).maxLineWidth - x.lineWidth)
                      ++ env.dim (x.line ++ env.gray ":" ++ x.column),
                    spaces ((aggregate env results).maxColumnWidth - x.columnWidth)
                      ++ x.message,
                    spaces ((aggregate env results).maxMessageWidth - x.messageWidth)
                      ++ ruleText env data x ]
            ∧ renderItem env data (aggregate env results) (LineItem.message x)
              = Except.ok ("  ".intercalate
                  [ "", "error",
                    spaces ((aggregate env results).maxColumnWidth - x.columnWidth)
                      ++ x.message,
                    spaces ((aggregate env results).maxMessageWidth - x.messageWidth)
                      ++ ruleText env data x ]))) := by
  constructor
  · rw [aggregate_showLineNumbers, List.any_eq_true]
    constructor
    · rintro ⟨m, hm, hp⟩
      refine ⟨m, hm, ?_⟩
      rw [Bool.or_eq_true, numTruthy_iff, numTruthy_iff] at hp
      exact hp
    · rintro ⟨m, hm, hp⟩
      refine ⟨m, hm, ?_⟩
      rw [Bool.or_eq_true, numTruthy_iff, numTruthy_iff]
      exact hp
  · intro hshow
    constructor
    · intro filePath relativeFilePath firstLineCol
      simp only [renderItem, hshow, Bool.false_eq_true, if_false]
    · intro x hx
      obtain ⟨hsev, _, _, _, hl, hc, hm, _⟩ := (aggregate_rowsMeasured env results).1 x hx
      have hfields : rowFields env data (aggregate env results) x
          = Except.ok
              [ "", "error",
                spaces ((aggregate env results).maxLineWidth - x.lineWidth)
                  ++ env.dim (x.line ++ env.gray ":" ++ x.column),
                spaces ((aggregate env results).maxColumnWidth - x.columnWidth)
                  ++ x.message,
                spaces ((aggregate env results).maxMessageWidth - x.messageWidth)
                  ++ ruleText env data x ] := by
        simp only [rowFields, repeatSpaces_sub _ _ hl, repeatSpaces_sub _ _ hc,
          repeatSpaces_sub _ _ hm, hsev]
        rfl
      refine ⟨hfields, ?_⟩
      simp only [renderItem, hfields, hshow, Bool.false_eq_true, if_false]
      rfl

/-! ## Lemmas on the accounting of messages -/

theorem summaryTotal_bump (filePath k : String) (summary : List (String × SummaryEntry)) :
    summaryTotal (summaryBump filePath k summary) = summaryTotal summary + 1 := by
  induction summary with
  | nil => simp [summaryBump, summaryTotal]
  | cons p rest ih =>
    obtain ⟨k', e⟩ := p
    by_cases h : k' = k
    · simp only [summaryBump, h, if_true, summaryTotal, List.map_cons, List.sum_cons]
      omega
    · simp only [summaryTotal] at ih
      simp only [summaryBump, h, if_false, summaryTotal, List.map_cons, List.sum_cons, ih]
      omega

theorem foldl_processMessage_summaryTotal (env : Env) (filePath : String)
    (ms : List LintMessage) (st : Agg) :
    summaryTotal (ms.foldl (processMessage env filePath) st).summary
      = summaryTotal st.summary + (ms.filter (fun m => !isError m)).length := by
  induction ms generalizing st with
  | nil => simp
  | cons m ms ih =>
    simp only [List.foldl_cons]
    rw [ih]
    cases he : isError m with
    | true => simp [processMessage, he, List.filter_cons]
    | false =>
      simp only [processMessage, he, Bool.false_eq_true, if_false, summaryTotal_bump,
        List.filter_cons, Bool.not_false, if_true, List.length_cons]
      omega

theorem processResult_summaryTotal (env : Env) (st : Agg) (r : LintResult) :
    summaryTotal (processResult env st r).summary
      = summaryTotal st.summary + (r.messages.filter (fun m => !isError m)).length := by
  unfold processResult
  split
  · rename_i h; simp [h]
  · rw [foldl_processMessage_summaryTotal,
      ((jsSort_perm compareMessages r.messages).filter (fun m => !isError m)).length_eq]
    rfl

theorem processResult_messageItems (env : Env) (st : Agg) (r : LintResult) :
    ((processResult env st r).lines.filter isMessageItem).length
      = (st.lines.filter isMessageItem).length + trueErrorCount r.messages := by
  by_cases hr : r.messages = []
  · rw [processResult_of_nil env st r hr]
    simp [hr, trueErrorCount]
  · rw [processResult_lines env st r hr]
    have hsep : ((if st.lines.length ≠ 0 then [LineItem.separator] else []).filter
        isMessageItem).length = 0 := by
      split <;> rfl
    have hitems : ((resultItems env r).filter isMessageItem).length
        = trueErrorCount r.messages := by
      have hmap : ∀ l : List LintMessage,
          ((l.map (fun m => LineItem.message (messageItem env m))).filter isMessageItem).length
            = l.length := by
        intro l
        induction l with
        | nil => rfl
        | cons m l ih => simp [List.filter_cons, isMessageItem, ih]
      have hhead : ((if trueErrorCount r.messages > 0 then
          [LineItem.header r.filePath (env.relative r.filePath) (headerPosition r.messages)]
          else []).filter isMessageItem).length = 0 := by
        split <;> rfl
      unfold resultItems
      rw [List.filter_append, List.length_append, hhead, hmap]
      simpa using trueErrorCount_jsSort r.messages
    rw [List.filter_append, List.filter_append, List.length_append, List.length_append, hsep,
      hitems]
    omega

theorem foldl_processResult_accounting (env : Env) (l : List LintResult) (st : Agg) :
    ((l.foldl (processResult env) st).lines.filter isMessageItem).length
        = (st.lines.filter isMessageItem).length
          + (l.map (fun r => trueErrorCount r.messages)).sum
    ∧ summaryTotal (l.foldl (processResult env) st).summary
        = summaryTotal st.summary
          + (l.map (fun r => (r.messages.filter (fun m => !isError m)).length)).sum := by
  induction l generalizing st with
  | nil => simp
  | cons r l ih =>
    simp only [List.foldl_cons, List.map_cons, List.sum_cons]
    rw [(ih _).1, (ih _).2, processResult_messageItems, processResult_summaryTotal]
    constructor <;> omega

theorem sum_lengths (l : List LintResult) :
    (l.map (fun r => trueErrorCount r.messages)).sum
      + (l.map (fun r => (r.messages.filter (fun m => !isError m)).length)).sum
      = (allMessages l).length := by
  induction l with
  | nil => rfl
  | cons r l ih =>
    have hsplit : trueErrorCount r.messages + (r.messages.filter (fun m => !isError m)).length
        = r.messages.length := by
      unfold trueErrorCount
      rw [← List.countP_eq_length_filter, ← List.countP_eq_length_filter]
      have hfun : (fun m : LintMessage => !isError m)
          = (fun a => decide ¬isError a = true) := by
        funext a
        cases isError a <;> rfl
      rw [hfun]
      exact (List.length_eq_countP_add_countP isError r.messages).symm
    simp only [List.map_cons, List.sum_cons, allMessages, List.flatMap_cons,
      List.length_append] at ih ⊢
    omega

/-! ## Claim on the accounting of messages -/

/-- C19: the number of message rows equals the error total, every message row is tagged
"error", and the number of message rows plus the sum of all summary counts is the total
number of messages over all results. -/
theorem messages_accounted_once (env : Env) (results : List LintResult) :
    ((aggregate env results).lines.filter isMessageItem).length = (aggregate env results).errorCount
    ∧ (∀ x, LineItem.message x ∈ (aggregate env results).lines → x.severity = "error")
    ∧ ((aggregate env results).lines.filter isMessageItem).length
        + summaryTotal (aggregate env results).summary
      = (allMessages results).length := by
  have hacc := foldl_processResult_accounting env (jsSort compareResults results) Agg.init
  have herr := foldl_processResult_errorCount env (jsSort compareResults results) Agg.init
  have hlen := sum_lengths (jsSort compareResults results)
  have hperm : (allMessages (jsSort compareResults results)).length
      = (allMessages results).length :=
    (List.Perm.flatMap_right (fun r : LintResult => r.messages)
      (jsSort_perm compareResults results)).length_eq
  have h0 : (Agg.init.lines.filter isMessageItem).length = 0 := rfl
  have h1 : summaryTotal Agg.init.summary = 0 := rfl
  have h2 : Agg.init.errorCount = 0 := rfl
  refine ⟨?_, fun x hx => ((aggregate_rowsMeasured env results).1 x hx).1, ?_⟩
  · unfold aggregate
    rw [hacc.1, herr, h0, h2]
  · unfold aggregate
    rw [hacc.1, hacc.2, h0, h1]
    omega

/-! ## Lemmas on the rendered text -/

theorem formatter_eq_ok (env : Env) (data : RuleData) (results : List LintResult) (out : String)
    (hout : formatter env results data = Except.ok out) :
    ∃ summaryText errorText,
      summaryBlock env (aggregate env results) = Except.ok summaryText
      ∧ errorBlock env data (aggregate env results) = Except.ok errorText
      ∧ out = (if ((aggregate env results).errorCount : Int)
                  + (aggregate env results).warningCount > 0 then
                preamble env ++ summaryText ++ errorText ++ totals env (aggregate env results)
              else "") := by
  unfold formatter render at hout
  cases hs : summaryBlock env (aggregate env results) with
  | error e => rw [hs] at hout; exact Except.noConfusion hout
  | ok summaryText =>
    cases he : errorBlock env data (aggregate env results) with
    | error e => rw [hs, he] at hout; exact Except.noConfusion hout
    | ok errorText =>
      rw [hs, he] at hout
      exact ⟨summaryText, errorText, rfl, rfl, (Except.ok.inj hout).symm⟩

theorem plainEnv_plur (word : String) (n : Int) (hn : 0 < n) :
    plainEnv.plur word n = if n = 1 then word else word ++ "s" := by
  show (if n.natAbs = 1 then word else word ++ "s") = _
  by_cases h : n = 1
  · subst h; rfl
  · have h2 : ¬ n.natAbs = 1 := by omega
    rw [if_neg h, if_neg h2]

theorem summary_eq_nil_iff (env : Env) (results : List LintResult) :
    (aggregate env results).summary = [] ↔ ∀ m ∈ allMessages results, classifiedError m := by
  constructor
  · intro hnil m hm
    by_contra hc
    have hget := aggregate_summaryGet env results (ruleKey m.ruleId)
    rw [hnil] at hget
    have hmem : m ∈ (allMessages results).filter (summarizedUnder (ruleKey m.ruleId)) := by
      rw [List.mem_filter]
      exact ⟨hm, decide_eq_true ⟨hc, rfl⟩⟩
    have hpos := List.length_pos_of_mem hmem
    have hne : ¬ summaryCountSpec (ruleKey m.ruleId) results = 0 := by
      unfold summaryCountSpec; omega
    rw [if_neg hne] at hget
    exact Option.noConfusion hget
  · intro hall
    cases hs : (aggregate env results).summary with
    | nil => rfl
    | cons entry rest =>
      exfalso
      have hmem : entry ∈ (aggregate env results).summary := by
        rw [hs]; exact List.mem_cons_self _ _
      have hget := summaryGet_of_mem _ (aggregate_keys_nodup env results) entry hmem
      rw [aggregate_summaryGet] at hget
      by_cases h0 : summaryCountSpec entry.1 results = 0
      · rw [if_pos h0] at hget; exact Option.noConfusion hget
      · have hpos : 0 < ((allMessages results).filter (summarizedUnder entry.1)).length := by
          unfold summaryCountSpec at h0; omega
        obtain ⟨m, hm⟩ := List.exists_mem_of_length_pos hpos
        rw [List.mem_filter] at hm
        have hsum : ¬ classifiedError m ∧ ruleKey m.ruleId = entry.1 := of_decide_eq_true hm.2
        exact hsum.1 (hall m hm.1)

theorem errorCount_eq_zero_iff (env : Env) (results : List LintResult) :
    (aggregate env results).errorCount = 0 ↔ ∀ m ∈ allMessages results, ¬ classifiedError m := by
  rw [aggregate_errorCount]
  unfold errorMessageCount
  rw [List.length_eq_zero, List.filter_eq_nil_iff]
  constructor
  · intro h m hm hc
    exact h m hm (decide_eq_true hc)
  · intro h m hm hd
    exact h m hm (of_decide_eq_true hd)

/-! ## Claims on the rendered text -/

/-- C13: when `plur` returns the word for the count 1 and the word with `s` for any other
positive count, a non-empty output ends with the totals text: the warning part, present exactly
when the warning total is positive, followed by the error part led by a comma, present exactly
when the error total is positive; each noun is singular exactly when its count is 1. -/
theorem totals_line (env : Env) (data : RuleData) (results : List LintResult) (out : String)
    (hwarning : ∀ n : Int, 0 < n →
      env.plur "warning" n = if n = 1 then "warning" else "warnings")
    (herror : ∀ n : Int, 0 < n → env.plur "error" n = if n = 1 then "error" else "errors")
    (hout : formatter env results data = Except.ok out) (hne : out ≠ "") :
    ∃ before, out = before
      ++ ((if 0 < (aggregate env results).warningCount then
            "  " ++ env.yellow (toString (aggregate env results).warningCount ++ " "
              ++ (if (aggregate env results).warningCount = 1 then "warning" else "warnings"))
          else "")
        ++ (if 0 < (aggregate env results).errorCount then
            ", " ++ env.red (toString (aggregate env results).errorCount ++ " "
              ++ (if (aggregate env results).errorCount = 1 then "error" else "errors"))
              ++ "\n"
          else "")) := by
  obtain ⟨summaryText, errorText, _, _, hform⟩ := formatter_eq_ok env data results out hout
  generalize aggregate env results = agg at *
  by_cases hpos : (agg.errorCount : Int) + agg.warningCount > 0
  · rw [if_pos hpos] at hform
    refine ⟨preamble env ++ summaryText ++ errorText, ?_⟩
    rw [hform]
    congr 1
    unfold totals
    congr 1
    · by_cases hw : agg.warningCount > 0
      · have hw2 : 0 < agg.warningCount := hw
        rw [if_pos hw, if_pos hw2, hwarning _ hw2]
      · have hw2 : ¬ 0 < agg.warningCount := hw
        rw [if_neg hw, if_neg hw2]
    · by_cases he : agg.errorCount > 0
      · have he2 : 0 < agg.errorCount := he
        have he3 : (0 : Int) < (agg.errorCount : Int) := by omega
        rw [if_pos he, if_pos he2, herror _ he3]
        by_cases h1 : agg.errorCount = 1
        · have h1i : (agg.errorCount : Int) = 1 := by omega
          rw [if_pos h1, if_pos h1i]
        · have h1i : ¬ (agg.errorCount : Int) = 1 := by omega
          rw [if_neg h1, if_neg h1i]
      · have he2 : ¬ 0 < agg.errorCount := he
        rw [if_neg he, if_neg he2]
  · rw [if_neg hpos] at hform
    exact absurd hform hne

/-- Witness for C13: two warnings and one error in one file. -/
theorem totals_line_witness :
    ∃ before,
      "\n  Warning summary\n  no-console  2 errors in 1 files\n\n  Error details\n  a.js:3:1\n"
        ++ "  error  3:1  Missing semicolon.             semi\n\n  2 warnings, 1 error\n"
      = before ++ ("  2 warnings" ++ ", 1 error\n") :=
  totals_line plainEnv noData
    [{ filePath := "a.js"
       messages := [{ line := some 1, column := some 1, severity := Severity.num 1,
                      fatal := none, ruleId := RuleId.str "no-console",
                      message := "Unexpected console statement." },
                    { line := some 2, column := some 1, severity := Severity.num 1,
                      fatal := none, ruleId := RuleId.str "no-console",
                      message := "Unexpected console statement." },
                    { line := some 3, column := some 1, severity := Severity.num 2,
                      fatal := none, ruleId := RuleId.str "semi",
                      message := "Missing semicolon." }]
       errorCount := 1
       warningCount := 2 }]
    _ (plainEnv_plur "warning") (plainEnv_plur "error") rfl (by decide)

/-- C15: a non-empty output is the preamble, the summary text, the error text and the totals,
where the summary text is the "Warning summary" block when some message is not
error-classified and is empty otherwise, and the error text is the "Error details" block when
some message is error-classified and is empty otherwise. -/
theorem blocks_present (env : Env) (data : RuleData) (results : List LintResult) (out : String)
    (hout : formatter env results data = Except.ok out) (hne : out ≠ "") :
    ∃ summaryText errorText,
      out = preamble env ++ summaryText ++ errorText ++ totals env (aggregate env results)
      ∧ ((∃ m ∈ allMessages results, ¬ classifiedError m) →
          ∃ body, summaryText = "  " ++ env.blue "Warning summary" ++ "\n" ++ body)
      ∧ ((¬ ∃ m ∈ allMessages results, ¬ classifiedError m) → summaryText = "")
      ∧ ((∃ m ∈ allMessages results, classifiedError m) →
          ∃ body, errorText = "  " ++ env.blue "Error details" ++ "\n" ++ body)
      ∧ ((¬ ∃ m ∈ allMessages results, classifiedError m) → errorText = "") := by
  obtain ⟨summaryText, errorText, hs, he, hform⟩ := formatter_eq_ok env data results out hout
  have hsum := summary_eq_nil_iff env results
  have herr := errorCount_eq_zero_iff env results
  refine ⟨summaryText, errorText, ?_, ?_, ?_, ?_, ?_⟩
  · by_cases hpos : ((aggregate env results).errorCount : Int)
        + (aggregate env results).warningCount > 0
    · rw [if_pos hpos] at hform; exact hform
    · rw [if_neg hpos] at hform; exact absurd hform hne
  · rintro ⟨m, hm, hc⟩
    have hnonempty : (aggregate env results).summary.length > 0 := by
      apply List.length_pos.mpr
      intro hnil
      exact hc (hsum.mp hnil m hm)
    unfold summaryBlock at hs
    rw [if_pos hnonempty] at hs
    cases hl : summaryLines env (aggregate env results).maxRuleWidth
        (aggregate env results).summary with
    | error e => rw [hl] at hs; exact Except.noConfusion hs
    | ok body =>
      rw [hl] at hs
      exact ⟨body ++ "\n", by rw [← Except.ok.inj hs, String.append_assoc]⟩
  · intro hno
    have hnil : (aggregate env results).summary = [] := by
      apply hsum.mpr
      intro m hm
      by_contra hc
      exact hno ⟨m, hm, hc⟩
    unfold summaryBlock at hs
    rw [hnil] at hs
    exact (Except.ok.inj hs).symm
  · rintro ⟨m, hm, hc⟩
    have hpos : (aggregate env results).errorCount > 0 := by
      apply Nat.pos_of_ne_zero
      intro h0
      exact herr.mp h0 m hm hc
    unfold errorBlock at he
    rw [if_pos hpos] at he
    cases hl : renderItems env data (aggregate env results) (aggregate env results).lines with
    | error e => rw [hl] at he; exact Except.noConfusion he
    | ok rows =>
      rw [hl] at he
      exact ⟨"\n".intercalate rows ++ "\n\n",
        by rw [← Except.ok.inj he, String.append_assoc]⟩
  · intro hno
    have h0 : (aggregate env results).errorCount = 0 := by
      apply herr.mpr
      intro m hm hc
      exact hno ⟨m, hm, hc⟩
    unfold errorBlock at he
    rw [h0] at he
    exact (Except.ok.inj he).symm

/-- Witness for C15: the outputs of the two scenarios, a single severity-1 message and a single
severity-2 message, and the decomposition of the first. -/
theorem blocks_present_witness :
    formatter plainEnv singleWarning noData
      = Except.ok "\n  Warning summary\n  no-console  1 errors in 1 files\n\n  1 warning"
    ∧ formatter plainEnv singleError noData
      = Except.ok ("\n  Error details\n  a.js:1:1\n"
          ++ "  error  1:1  x is defined but never used.  no-unused-vars\n\n, 1 error\n")
    ∧ ∃ summaryText errorText,
        "\n  Warning summary\n  no-console  1 errors in 1 files\n\n  1 warning"
          = preamble plainEnv ++ summaryText ++ errorText
            ++ totals plainEnv (aggregate plainEnv singleWarning)
        ∧ errorText = "" :=
  ⟨rfl, rfl,
   match blocks_present plainEnv noData singleWarning _ rfl (by decide) with
   | ⟨summaryText, errorText, h1, _, _, _, h5⟩ =>
     ⟨summaryText, errorText, h1, h5 (by decide)⟩⟩

/-- C14: for the result of an ignored file the warning total is 1 and the error total is 0, and
the formatter throws instead of returning a string that begins with a newline; with a
`warningCount` field of 0 both totals are zero and it throws instead of returning the empty
string. -/
theorem clean_run_throws (env : Env) (data : RuleData) :
    (aggregate env (ignoredFile 1)).errorCount = 0
    ∧ (aggregate env (ignoredFile 1)).warningCount = 1
    ∧ formatter env (ignoredFile 1) data = Except.error JsError.rangeError
    ∧ (aggregate env (ignoredFile 0)).errorCount = 0
    ∧ (aggregate env (ignoredFile 0)).warningCount = 0
    ∧ formatter env (ignoredFile 0) data = Except.error JsError.rangeError :=
  ⟨rfl, rfl, rfl, rfl, rfl, rfl⟩

/-! ## The returned value on a clean run -/

/-- When the formatter returns and no `warningCount` field is negative, the returned string is
empty exactly when both totals are zero, and otherwise begins with a newline. -/
theorem formatter_ok_empty_iff (env : Env) (data : RuleData) (results : List LintResult)
    (out : String) (hnonneg : ∀ r ∈ results, 0 ≤ r.warningCount)
    (hout : formatter env results data = Except.ok out) :
    (out = "" ↔ (aggregate env results).errorCount = 0 ∧ (aggregate env results).warningCount = 0)
    ∧ (out ≠ "" → ∃ rest, out = "\n" ++ rest) := by
  obtain ⟨summaryText, errorText, _, _, hform⟩ := formatter_eq_ok env data results out hout
  have hw : 0 ≤ (aggregate env results).warningCount := by
    rw [aggregate_warningCount]
    apply List.sum_nonneg
    intro x hx
    rw [List.mem_map] at hx
    obtain ⟨r, hr, rfl⟩ := hx
    exact hnonneg r (List.mem_of_mem_filter hr)
  have hlen : ∀ rest : String, "\n" ++ rest ≠ "" := by
    intro rest h
    have := congrArg String.length h
    rw [String.length_append] at this
    have h1 : ("\n" : String).length = 1 := rfl
    have h0 : ("" : String).length = 0 := rfl
    omega
  by_cases hpos : ((aggregate env results).errorCount : Int)
      + (aggregate env results).warningCount > 0
  · rw [if_pos hpos] at hform
    have hshape : out = "\n" ++ ((if env.isTTY && !env.ci then env.setCwd else "")
        ++ summaryText ++ errorText ++ totals env (aggregate env results)) := by
      rw [hform]
      unfold preamble
      simp only [String.append_assoc]
    constructor
    · constructor
      · intro h; rw [h] at hshape; exact absurd hshape.symm (hlen _)
      · rintro ⟨h1, h2⟩; omega
    · intro _; exact ⟨_, hshape⟩
  · rw [if_neg hpos] at hform
    constructor
    · constructor
      · intro _; constructor <;> omega
      · intro _; exact hform
    · intro h; exact absurd hform h

end PrettySummary
